import Mathlib

/-!
Verification of the sharedhttpcache caching engine (a shared HTTP caching
reverse proxy, Go) against its natural-language specification.

Shallow embedding conventions:
* Go strings are modelled as `List Char` (`GoStr`); every character is treated
  as one byte (all strings exercised here are ASCII).
* Go `time.Time` and `time.Duration` are modelled as `Int` nanoseconds; the
  current instant is an explicit `now : Int` parameter.
* Go `int`/`int64` arithmetic is modelled on `Int`; where the source can
  overflow (`time.Duration` multiplication) the wrap-around is modelled
  explicitly by `wrap64`.
* `http.ParseTime` (HTTP date parsing, standard library) is kept abstract as a
  function parameter `parseTime : GoStr -> Option Int`.
* Fallible Go code returns `Option`/`Except`; a Go nil-pointer dereference is
  modelled as `Except.error GoPanic.nilPointerDereference`.
* Go maps are modelled as association lists with unique keys; where the source
  iterates over a map the model fixes the iteration order to list order (the
  claims settled on such code only involve states where at most one iteration
  order is possible).
-/

set_option maxRecDepth 4096

/-- Go strings, one `Char` per byte (ASCII scope). -/
abbrev GoStr := List Char

/-- Shorthand to write `GoStr` literals. -/
def gs (s : String) : GoStr := s.data

/-- ASCII lowering of one character (`strings.ToLower`, ASCII scope). -/
def asciiLower (c : Char) : Char :=
  if 'A' ≤ c ∧ c ≤ 'Z' then Char.ofNat (c.toNat + 32) else c

/-- `strings.ToLower` (ASCII scope). -/
def goToLower (s : GoStr) : GoStr := s.map asciiLower

/-- `unicode.IsSpace` restricted to the ASCII white-space characters. -/
def goIsSpace (c : Char) : Bool :=
  c == ' ' || c == '\t' || c == '\n' || c == '\x0b' || c == '\x0c' || c == '\r'

/-- `strings.TrimSpace` (ASCII scope). -/
def goTrimSpace (s : GoStr) : GoStr :=
  ((s.dropWhile goIsSpace).reverse.dropWhile goIsSpace).reverse

/-- `strings.HasPrefix s pre`. -/
def goStartsWith : GoStr → GoStr → Bool
  | _, [] => true
  | [], _ :: _ => false
  | c :: cs, p :: ps => c == p && goStartsWith cs ps

/-- `strings.TrimPrefix s pre`. -/
def goDropPre (s pre : GoStr) : GoStr :=
  if goStartsWith s pre then s.drop pre.length else s

/-- `strings.HasSuffix s suf`. -/
def goHasSuffix (s suf : GoStr) : Bool := goStartsWith s.reverse suf.reverse

/-- `strings.Trim s cutset` for a one-character cutset. -/
def goTrimChar (s : GoStr) (c : Char) : GoStr :=
  ((s.dropWhile (· == c)).reverse.dropWhile (· == c)).reverse

/-- `strings.Split s sep` for a one-character separator. -/
def goSplitChar (sep : Char) (s : GoStr) : List GoStr :=
  match s with
  | [] => [[]]
  | c :: rest =>
    let tail := goSplitChar sep rest
    if c == sep then [] :: tail
    else match tail with
      | t :: ts => (c :: t) :: ts
      | [] => [[c]]

/-- `strings.Join parts sep` for a one-character separator. -/
def goJoinChar (sep : Char) : List GoStr → GoStr
  | [] => []
  | [p] => p
  | p :: rest => p ++ sep :: goJoinChar sep rest

/-- The value of a decimal digit character. -/
def decDigit? (c : Char) : Option Nat :=
  if '0' ≤ c ∧ c ≤ '9' then some (c.toNat - 48) else none

/-- Accumulating decimal parse; fails on any non-digit character. -/
def parseDecAux (acc : Nat) : GoStr → Option Nat
  | [] => some acc
  | c :: cs =>
    match decDigit? c with
    | some d => parseDecAux (acc * 10 + d) cs
    | none => none

/-- Parse a non-empty all-digit string. -/
def parseDecDigits (s : GoStr) : Option Nat :=
  match s with
  | [] => none
  | _ :: _ => parseDecAux 0 s

/-- Largest `int64` value, `2^63 - 1`. -/
def maxInt64 : Int := 9223372036854775807

/-- Smallest `int64` value, `-2^63` (`math.MinInt64`). -/
def minInt64 : Int := -9223372036854775808

/-- `strconv.ParseInt(s, 10, 0)`: optional sign, one or more digits, and the
result must fit in `int64` (Go reports a range error otherwise, which every
caller in this code base treats the same as a syntax error). -/
def goParseInt (s : GoStr) : Option Int :=
  match s with
  | [] => none
  | c :: rest =>
    if c = '+' then
      (parseDecDigits rest).bind fun n =>
        if (n : Int) ≤ maxInt64 then some (n : Int) else none
    else if c = '-' then
      (parseDecDigits rest).bind fun n =>
        if -(n : Int) ≥ minInt64 then some (-(n : Int)) else none
    else
      (parseDecDigits s).bind fun n =>
        if (n : Int) ≤ maxInt64 then some (n : Int) else none

/-- The decimal digit characters. -/
def digitChar (n : Nat) : Char :=
  match n with
  | 0 => '0' | 1 => '1' | 2 => '2' | 3 => '3' | 4 => '4'
  | 5 => '5' | 6 => '6' | 7 => '7' | 8 => '8' | _ => '9'

/-- Decimal rendering of a natural number. -/
def natToDec (n : Nat) : GoStr :=
  if _h : n < 10 then [digitChar n]
  else natToDec (n / 10) ++ [digitChar (n % 10)]
decreasing_by exact Nat.div_lt_self (by omega) (by omega)

/-- `strconv.FormatInt(i, 10)`. -/
def intToDec (i : Int) : GoStr :=
  if i < 0 then '-' :: natToDec i.natAbs else natToDec i.natAbs

/-- Byte-wise (here: character-wise) string comparison, Go's `s <= t`. -/
def goStrLe : GoStr → GoStr → Bool
  | [], _ => true
  | _ :: _, [] => false
  | a :: as, b :: bs =>
    if a.toNat < b.toNat then true
    else if b.toNat < a.toNat then false
    else goStrLe as bs

/-- The `goStrLe` order as a relation, for use with `List.insertionSort`. -/
def goStrLeRel (a b : GoStr) : Prop := goStrLe a b = true

instance : DecidableRel goStrLeRel := fun a b => by
  unfold goStrLeRel; infer_instance

/-- `sort.Strings`: Go's sort is not stable, but since equal strings are
interchangeable the sorted result is unique, so insertion sort models it
exactly. -/
def sortStrings (l : List GoStr) : List GoStr := List.insertionSort goStrLeRel l

/-- `http.Header` / `textproto.MIMEHeader`: a Go map from (canonical) header
names to value lists, modelled as an association list with unique keys. -/
abbrev Headers := List (GoStr × List GoStr)

/-- The value slice `h[key]` of a Go header map (empty when absent). -/
def headerValues (h : Headers) (key : GoStr) : List GoStr :=
  match h.find? (fun p => p.1 == key) with
  | some p => p.2
  | none => []

/-- `http.Header.Get`: the first value, or the empty string. -/
def headerGet (h : Headers) (key : GoStr) : GoStr :=
  match headerValues h key with
  | v :: _ => v
  | [] => []

/-- `http.Header.Del`. -/
def headerDel (h : Headers) (key : GoStr) : Headers :=
  h.filter fun p => !(p.1 == key)

/-- `http.Header.Set`: replace all values of `key` by the single value `v`. -/
def headerSet (h : Headers) (key : GoStr) (v : GoStr) : Headers :=
  (key, [v]) :: headerDel h key

/-- `textproto.CanonicalMIMEHeaderKey` (ASCII scope; Go leaves strings with
invalid token characters unchanged, a case never exercised here). -/
def canonMIMEAux (upperNext : Bool) : GoStr → GoStr
  | [] => []
  | c :: rest =>
    let c' :=
      if upperNext then
        (if 'a' ≤ c ∧ c ≤ 'z' then Char.ofNat (c.toNat - 32) else c)
      else asciiLower c
    c' :: canonMIMEAux (c == '-') rest

def canonicalMIMEHeaderKey (s : GoStr) : GoStr := canonMIMEAux true s

/-- One scan step of `splitCacheControlHeader` (utils.go): character scan of a
single (already lowercased) header value, splitting on commas outside quotes,
trimming each directive and dropping empty ones. -/
def sccScan (inQuote : Bool) (cur : GoStr) (acc : List GoStr) : GoStr → List GoStr
  | [] =>
    let t := goTrimSpace cur
    if t.length ≠ 0 then acc ++ [t] else acc
  | c :: rest =>
    let inQ := if c == '"' then !inQuote else inQuote
    if c == ',' && !inQ then
      let t := goTrimSpace cur
      sccScan inQ [] (if t.length ≠ 0 then acc ++ [t] else acc) rest
    else
      sccScan inQ (cur ++ [c]) acc rest

/-- `splitCacheControlHeader` (utils.go): split the directives out of a list of
`Cache-Control` header values, lowercased, quote-aware, trimmed. -/
def splitCacheControlHeader (headerValues : List GoStr) : List GoStr :=
  headerValues.foldl (fun acc v => sccScan false [] acc (goToLower v)) []

/-! ## Data model (config.go / part_002, net/http, net/url) -/

/-- `net/url.URL`, restricted to the fields this code base uses. -/
structure URL where
  scheme : GoStr
  host : GoStr
  path : GoStr
  rawPath : GoStr
  rawQuery : GoStr
deriving DecidableEq, Repr

/-- `http.Request`, restricted to the fields this code base uses; `tls`
models `req.TLS != nil`. -/
structure Request where
  method : GoStr
  url : URL
  tls : Bool
  host : GoStr
  headers : Headers
deriving DecidableEq, Repr

/-- `http.Response`, restricted to the fields this code base uses; `request`
is the back-reference `resp.Request`. -/
structure Response where
  statusCode : Int
  headers : Headers
  request : Request
deriving DecidableEq, Repr

/-- `CacheConfig` (config.go). `statusCodeDefaultExpirationTimes` maps a
status code to a duration in nanoseconds. -/
structure CacheConfig where
  cacheableMethods : List GoStr
  safeMethods : List GoStr
  statusCodeDefaultExpirationTimes : List (Int × Int)
  cacheableFileExtensions : List GoStr
  cacheIncompleteResponses : Bool
  combinePartialResponses : Bool
  serveStaleOnError : Bool
  httpWarnings : Bool
deriving DecidableEq, Repr

/-- `ForwardConfig` (config.go). -/
structure ForwardConfig where
  host : GoStr
  tls : Bool
deriving DecidableEq, Repr

/-- Go map lookup `config.StatusCodeDefaultExpirationTimes[code]`. -/
def statusDefaultTTL (config : CacheConfig) (code : Int) : Option Int :=
  (config.statusCodeDefaultExpirationTimes.find? (fun p => p.1 == code)).map (fun p => p.2)

def ccKey : GoStr := gs "Cache-Control"
def dateKey : GoStr := gs "Date"
def expiresKey : GoStr := gs "Expires"
def ageKey : GoStr := gs "Age"
def varyKey : GoStr := gs "Vary"

/-! ## Go `int64`/`time` arithmetic helpers

Go `int64` arithmetic wraps around; `time.Time.Sub` saturates instead.  These
helpers make the places where the source can overflow explicit. -/

/-- Wrap an integer into `int64` range (Go two's-complement arithmetic). -/
def wrap64 (x : Int) : Int :=
  (x + 9223372036854775808) % 18446744073709551616 - 9223372036854775808

/-- `time.Time.Sub`, which saturates at the `time.Duration` bounds. -/
def timeSub (t u : Int) : Int := max minInt64 (min maxInt64 (t - u))

/-- `time.Duration(seconds) * time.Second` (wrapping `int64` product). -/
def secondsToDur (s : Int) : Int := wrap64 (wrap64 s * 1000000000)

/-- `int64(d.Seconds())`: nanoseconds to whole seconds, truncating toward
zero (the `float64` round-trip in the source is modelled as exact). -/
def durToSeconds (d : Int) : Int := Int.tdiv d 1000000000

/-! ## Cacheability / freshness logic (cacheability.go = unnamed/part_000) -/

/-- `isMethodSafe` (part_000): linear scan of `config.SafeMethods`. -/
def isMethodSafe (config : CacheConfig) (method : GoStr) : Bool :=
  config.safeMethods.any (fun safeMethod => safeMethod == method)

/-- `isMethodCacheable` (part_000): linear scan of `config.CacheableMethods`. -/
def isMethodCacheable (config : CacheConfig) (method : GoStr) : Bool :=
  config.cacheableMethods.any (fun configMethod => configMethod == method)

/-- `shouldStoreResponse` (part_000): the RFC 7234 section 3 storability
decision, translated check for check in source order. -/
def shouldStoreResponse (config : CacheConfig) (resp : Response)
    (parseTime : GoStr → Option Int) (now : Int) : Bool :=
  let req := resp.request
  if !isMethodSafe config req.method then false
  else if !isMethodCacheable config req.method then false
  else if resp.statusCode == 206 && !config.cacheIncompleteResponses then false
  else
    let requestCacheControlDirectives := splitCacheControlHeader (headerValues req.headers ccKey)
    if requestCacheControlDirectives.any (fun d => d == gs "no-store") then false
    else
      let responseCacheControlDirectives := splitCacheControlHeader (headerValues resp.headers ccKey)
      if responseCacheControlDirectives.any (fun d => d == gs "no-store" || d == gs "private") then
        false
      else if !(headerGet req.headers (gs "Authorization") == []) &&
          !(responseCacheControlDirectives.any (fun d =>
              d == gs "must-revalidate" || d == gs "public" || goStartsWith d (gs "s-maxage"))) then
        false
      else if headerGet resp.headers varyKey == gs "*" then false
      else if responseCacheControlDirectives.any (fun d =>
          goStartsWith d (gs "s-maxage") || goStartsWith d (gs "max-age") || d == gs "public") then
        true
      else
        -- the extension/status-code default tail of the function
        let extensionTail : Bool :=
          let defaultCacheableExtension := config.cacheableFileExtensions.any (fun ext =>
            goHasSuffix req.url.path ('.' :: ext))
          if !defaultCacheableExtension then false
          else (statusDefaultTTL config resp.statusCode).isSome
        let expiresStr := headerGet resp.headers expiresKey
        if !(expiresStr == []) then
          match parseTime expiresStr with
          | none => false
          | some expires => if expires - now > 0 then true else extensionTail
        else extensionTail

/-- `getResponseAge` (proxy.go): apparent age from the `Date` header, clamped
at zero, plus the `Age` header when it parses. -/
def getResponseAge (response : Response) (parseTime : GoStr → Option Int) (now : Int) : Int :=
  let apparentAge :=
    let dateString := headerGet response.headers dateKey
    if !(dateString == []) then
      match parseTime dateString with
      | some date =>
        let a := durToSeconds (timeSub now date)
        if a < 0 then 0 else a
      | none => 0
    else 0
  let ageHeader := headerGet response.headers ageKey
  if !(ageHeader == []) then
    match goParseInt ageHeader with
    | some ageValue => wrap64 (ageValue + apparentAge)
    | none => apparentAge
  else apparentAge

/-- The `s-maxage` scan of `getResponseTTL` (part_000): first directive with
the `s-maxage` name whose argument parses. -/
def ttlSMaxAgeScan (directives : List GoStr) : Option Int :=
  directives.findSome? fun directive =>
    if goStartsWith directive (gs "s-maxage") then
      goParseInt (goDropPre directive (gs "s-maxage="))
    else none

/-- The `max-age` scan of `getResponseTTL` (part_000). -/
def ttlMaxAgeScan (directives : List GoStr) : Option Int :=
  directives.findSome? fun directive =>
    if goStartsWith directive (gs "max-age") then
      goParseInt (goDropPre directive (gs "max-age="))
    else none

/-- `getResponseTTL` (part_000): remaining freshness lifetime of a response in
nanoseconds; negative means already stale. -/
def getResponseTTL (config : CacheConfig) (resp : Response)
    (parseTime : GoStr → Option Int) (now : Int) : Int :=
  let responseAge := getResponseAge resp parseTime now
  let directives := splitCacheControlHeader (headerValues resp.headers ccKey)
  match ttlSMaxAgeScan directives with
  | some sMaxAge => secondsToDur (sMaxAge - responseAge)
  | none =>
    match ttlMaxAgeScan directives with
    | some maxAge => secondsToDur (maxAge - responseAge)
    | none =>
      let date :=
        let dateString := headerGet resp.headers dateKey
        if !(dateString == []) then
          match parseTime dateString with
          | some parsedDate => parsedDate
          | none => now
        else now
      let expiresString := headerGet resp.headers expiresKey
      if !(expiresString == []) then
        match parseTime expiresString with
        | none => -1
        | some expires => wrap64 (timeSub expires date - secondsToDur responseAge)
      else
        match statusDefaultTTL config resp.statusCode with
        | some ttl => ttl
        | none => -1

/-- `requestOrResponseHasNoCache` (part_000): response side matches the plain
and the field-name form, request side only the plain form, with the
`Pragma: no-cache` fallback. -/
def requestOrResponseHasNoCache (resp : Response) : Bool :=
  let respDirs := splitCacheControlHeader (headerValues resp.headers ccKey)
  if respDirs.any (fun d => goTrimSpace d == gs "no-cache" || goStartsWith d (gs "no-cache=")) then
    true
  else
    let reqDirs := splitCacheControlHeader (headerValues resp.request.headers ccKey)
    if reqDirs.any (fun d => goTrimSpace d == gs "no-cache") then true
    else
      (headerGet resp.request.headers ccKey == []) &&
        (headerGet resp.request.headers (gs "Pragma") == gs "no-cache")

/-- `responseHasMustRevalidate` (part_000). -/
def responseHasMustRevalidate (resp : Response) : Bool :=
  (splitCacheControlHeader (headerValues resp.headers ccKey)).any fun d =>
    goTrimSpace d == gs "must-revalidate" || goTrimSpace d == gs "proxy-revalidate"

/-- `mayServeStaleResponseByExtension` (part_000): RFC 5861 extensions are not
implemented; the source returns `false` unconditionally. -/
def mayServeStaleResponseByExtension (_cacheConfig : CacheConfig) (_response : Response) : Bool :=
  false

/-- `mayServeStaleResponse` (part_000): whether a stale response may be served
on revalidation failure. -/
def mayServeStaleResponse (cacheConfig : CacheConfig) (response : Response) : Bool :=
  if !cacheConfig.serveStaleOnError then false
  else if mayServeStaleResponseByExtension cacheConfig response then true
  else
    !(splitCacheControlHeader (headerValues response.headers ccKey)).any fun directive =>
      directive == gs "must-revalidate" || directive == gs "proxy-revalidate" ||
        directive == gs "no-cache" || goStartsWith directive (gs "s-maxage")

/-! ## net/url query machinery (Go 1.13), used by utils.go -/

/-- Hexadecimal digit value. -/
def hexVal? (c : Char) : Option Nat :=
  if '0' ≤ c ∧ c ≤ '9' then some (c.toNat - 48)
  else if 'a' ≤ c ∧ c ≤ 'f' then some (c.toNat - 87)
  else if 'A' ≤ c ∧ c ≤ 'F' then some (c.toNat - 55)
  else none

/-- Upper-case hexadecimal digit characters. -/
def hexDigitUpper (n : Nat) : Char :=
  match n with
  | 0 => '0' | 1 => '1' | 2 => '2' | 3 => '3' | 4 => '4'
  | 5 => '5' | 6 => '6' | 7 => '7' | 8 => '8' | 9 => '9'
  | 10 => 'A' | 11 => 'B' | 12 => 'C' | 13 => 'D' | 14 => 'E' | _ => 'F'

/-- `url.QueryUnescape`: percent-decoding with `+` as space; `none` on a
malformed escape. -/
def queryUnescape : GoStr → Option GoStr
  | [] => some []
  | '%' :: rest =>
    match rest with
    | h1 :: h2 :: rest' =>
      match hexVal? h1, hexVal? h2 with
      | some a, some b => (queryUnescape rest').map (fun t => Char.ofNat (16 * a + b) :: t)
      | _, _ => none
    | _ => none
  | '+' :: rest => (queryUnescape rest).map (fun t => ' ' :: t)
  | c :: rest => (queryUnescape rest).map (fun t => c :: t)

/-- `url.PathUnescape` style decoding (no `+` conversion), used to model
`URL.EscapedPath`'s round-trip validity check. -/
def pathUnescape : GoStr → Option GoStr
  | [] => some []
  | '%' :: rest =>
    match rest with
    | h1 :: h2 :: rest' =>
      match hexVal? h1, hexVal? h2 with
      | some a, some b => (pathUnescape rest').map (fun t => Char.ofNat (16 * a + b) :: t)
      | _, _ => none
    | _ => none
  | c :: rest => (pathUnescape rest).map (fun t => c :: t)

/-- Characters `url.QueryEscape` leaves unescaped. -/
def isQueryPlainChar (c : Char) : Bool :=
  c.isAlphanum || c == '-' || c == '_' || c == '.' || c == '~'

/-- `url.QueryEscape` (ASCII scope: one character is one byte). -/
def queryEscape (s : GoStr) : GoStr :=
  (s.map fun c =>
    if isQueryPlainChar c then [c]
    else if c == ' ' then ['+']
    else ['%', hexDigitUpper (c.toNat / 16 % 16), hexDigitUpper (c.toNat % 16)]).flatten

/-- Characters Go's path escaping leaves unescaped (ASCII approximation of
`shouldEscape(c, encodePath)`). -/
def isPathPlainChar (c : Char) : Bool :=
  c.isAlphanum || (gs "-_.~$&+,/;:@=!()*").contains c

/-- Escaping of the `Path` component for `URL.String` (ASCII scope). -/
def pathEscape (s : GoStr) : GoStr :=
  (s.map fun c =>
    if isPathPlainChar c then [c]
    else ['%', hexDigitUpper (c.toNat / 16 % 16), hexDigitUpper (c.toNat % 16)]).flatten

/-- Split a raw query on the Go 1.13 separators `&` and `;` (the empty
segments the split produces are skipped by `parseQuerySeg`, matching the
source loop exactly). -/
def splitQuerySeps : GoStr → List GoStr
  | [] => [[]]
  | c :: rest =>
    if c == '&' || c == ';' then [] :: splitQuerySeps rest
    else
      match splitQuerySeps rest with
      | t :: ts => (c :: t) :: ts
      | [] => [[c]]

/-- Split a query segment at its first `=` (`key`, `value`); a segment
without `=` has the empty value. -/
def cutAtEq : GoStr → GoStr × GoStr
  | [] => ([], [])
  | c :: rest =>
    if c == '=' then ([], rest)
    else
      let kv := cutAtEq rest
      (c :: kv.1, kv.2)

/-- `m[key] = append(m[key], value)` on `url.Values` (association list with
unique keys, first-insertion order). -/
def valuesAppend (m : List (GoStr × List GoStr)) (k : GoStr) (v : GoStr) :
    List (GoStr × List GoStr) :=
  match m with
  | [] => [(k, [v])]
  | (k', vs) :: rest =>
    if k' == k then (k', vs ++ [v]) :: rest
    else (k', vs) :: valuesAppend rest k v

/-- One iteration of Go 1.13 `url.parseQuery`: skip empty segments, cut at
`=`, unescape key and value (an escape error skips the pair and records the
error), append to the values map. -/
def parseQuerySeg (acc : List (GoStr × List GoStr) × Bool) (seg : GoStr) :
    List (GoStr × List GoStr) × Bool :=
  if seg.isEmpty then acc
  else
    let kv := cutAtEq seg
    match queryUnescape kv.1 with
    | none => (acc.1, true)
    | some key =>
      match queryUnescape kv.2 with
      | none => (acc.1, true)
      | some value => (valuesAppend acc.1 key value, acc.2)

/-- `url.ParseQuery` (Go 1.13): the parsed values and an error flag. -/
def parseQueryGo (query : GoStr) : List (GoStr × List GoStr) × Bool :=
  (splitQuerySeps query).foldl parseQuerySeg ([], false)

/-- `url.Values.Encode`: keys sorted, values of one key in insertion order,
`key=value` pairs escaped and joined by `&`. -/
def encodeValues (m : List (GoStr × List GoStr)) : GoStr :=
  let keys := sortStrings (m.map Prod.fst)
  goJoinChar '&'
    (keys.map (fun k =>
      (headerValues m k).map fun v => queryEscape k ++ '=' :: queryEscape v)).flatten

/-- `URL.EscapedPath`: use `RawPath` when it is a valid encoding of `Path`,
otherwise escape `Path`. -/
def escapedPath (u : URL) : GoStr :=
  if !(u.rawPath == []) && pathUnescape u.rawPath == some u.path then u.rawPath
  else pathEscape u.path

/-- `URL.String` for the URL shapes this code base constructs
(`scheme://host/path?query`; the opaque/user-info/fragment cases are never
exercised). -/
def urlString (u : URL) : GoStr :=
  (if !(u.scheme == []) then u.scheme ++ [':'] else []) ++
  (if !(u.host == []) then gs "//" ++ u.host else []) ++
  escapedPath u ++
  (if !(u.rawQuery == []) then '?' :: u.rawQuery else [])

/-! ## Cache keys (utils.go) -/

/-- `getEffectiveURI` (utils.go): absolute-form URLs are returned verbatim via
`URL.String`; otherwise the URI is rebuilt from the TLS flag, the request
`Host` (falling back to the forward config host), the path (`*` means empty)
and the re-encoded, key-sorted query. -/
def getEffectiveURI (req : Request) (forwardConfig : ForwardConfig) : GoStr :=
  if !(req.url.host == []) && !(req.url.scheme == []) then urlString req.url
  else
    let scheme := if req.tls then gs "https" else gs "http"
    let host := if !(req.host == []) then req.host else forwardConfig.host
    let base : URL := { scheme := scheme, host := host, path := [], rawPath := [], rawQuery := [] }
    let effectiveURI :=
      if !(req.url.path == gs "*") then
        let parsed := parseQueryGo req.url.rawQuery
        { base with
            path := req.url.path
            rawPath := req.url.rawPath
            rawQuery := if parsed.2 then [] else encodeValues parsed.1 }
      else base
    urlString effectiveURI

/-- `getPrimaryCacheKey` (utils.go): the method (verbatim) concatenated with
the effective URI. -/
def getPrimaryCacheKey (_cacheConfig : CacheConfig) (forwardConfig : ForwardConfig)
    (req : Request) : GoStr :=
  req.method ++ getEffectiveURI req forwardConfig

/-- `getSecondaryCacheKey` (utils.go).  `sort.Strings(secondaryKeyFields)`
mutates the caller's slice; the model returns the sorted slice alongside the
key to make that write-back explicit. -/
def getSecondaryCacheKey (secondaryKeyFields : List GoStr) (req : Request) :
    List GoStr × GoStr :=
  let sorted := sortStrings secondaryKeyFields
  let key := sorted.foldl (fun buf key =>
    let values := sortStrings (headerValues req.headers (canonicalMIMEHeaderKey key))
    buf ++ '|' :: key ++ ':' :: values.flatten) []
  (sorted, key)

/-! ## Proxy forwarder (proxy.go) -/

/-- The outbound URL rewrite of `proxyToOrigin` (proxy.go lines 106-115): the
scheme comes from `ForwardConfig.TLS`; both `outreq.URL.Host` and
`outreq.Host` are set to the client's request `Host`. -/
def rewriteOutboundURL (forwardConfig : ForwardConfig) (req : Request) : URL × GoStr :=
  let scheme := if forwardConfig.tls then gs "https" else gs "http"
  ({ req.url with scheme := scheme, host := req.host }, req.host)

/-- `writeCachedResponse` (proxy.go): the headers actually written to the
client; the recomputed `Age` header is set only when the age is
non-negative. -/
def writeCachedResponseHeaders (cachedResponse : Response)
    (parseTime : GoStr → Option Int) (now : Int) : Headers :=
  let age := getResponseAge cachedResponse parseTime now
  if 0 ≤ age then headerSet cachedResponse.headers ageKey (intToDec age)
  else cachedResponse.headers

/-! ## In-memory cache layer (layer/inmemory.go) -/

/-- `inMemoryCacheEntity`. -/
structure InMemoryEntity where
  data : List Nat
  expiration : Int
deriving DecidableEq, Repr

/-- `InMemoryCacheLayer`.  The two Go maps are association lists with unique
keys; the (unspecified) Go map iteration order is modelled as list order. -/
structure InMemoryCacheLayer where
  maxSize : Int
  entityStore : List (GoStr × InMemoryEntity)
  currentSize : Int
  staleKeys : List GoStr
deriving DecidableEq, Repr

/-- `NewInMemoryCacheLayer`. -/
def newInMemoryCacheLayer (maxSize : Int) : InMemoryCacheLayer :=
  { maxSize := maxSize, entityStore := [], currentSize := 0, staleKeys := [] }

/-- The private `delete` method: remove the entry, subtract its size from
`currentSize`, and report the freed size (0 when absent). -/
def imDeleteEntry (layer : InMemoryCacheLayer) (key : GoStr) : InMemoryCacheLayer × Int :=
  match layer.entityStore.find? (fun p => p.1 == key) with
  | some p =>
    let size : Int := p.2.data.length
    ({ layer with
        entityStore := layer.entityStore.filter (fun q => !(q.1 == key))
        currentSize := layer.currentSize - size }, size)
  | none => (layer, 0)

/-- The private `set` method: delete the key first (updating `currentSize`),
then insert the entry and add its size. -/
def imSetEntry (layer : InMemoryCacheLayer) (key : GoStr) (entry : InMemoryEntity) :
    InMemoryCacheLayer :=
  let l1 := (imDeleteEntry layer key).1
  { l1 with
      currentSize := l1.currentSize + entry.data.length
      entityStore := l1.entityStore ++ [(key, entry)] }

/-- The stale-keys loop of `replaceCache`: delete known-stale entries (also
clearing their stale mark) until `neededSize <= 0`; returns the layer, the
remaining needed size, and whether the loop returned early. -/
def replaceStaleLoop (layer : InMemoryCacheLayer) (neededSize : Int) :
    List GoStr → InMemoryCacheLayer × Int × Bool
  | [] => (layer, neededSize, false)
  | key :: rest =>
    let freed := imDeleteEntry layer key
    let l2 := { freed.1 with staleKeys := freed.1.staleKeys.filter (fun k => !(k == key)) }
    let needed := neededSize - freed.2
    if needed ≤ 0 then (l2, needed, true)
    else replaceStaleLoop l2 needed rest

/-- The fresh-entries loop of `replaceCache`: evict entries until
`neededSize <= 0`. -/
def replaceFreshLoop (layer : InMemoryCacheLayer) (neededSize : Int) :
    List GoStr → InMemoryCacheLayer × Int × Bool
  | [] => (layer, neededSize, false)
  | key :: rest =>
    let freed := imDeleteEntry layer key
    let needed := neededSize - freed.2
    if needed ≤ 0 then (freed.1, needed, true)
    else replaceFreshLoop freed.1 needed rest

/-- `replaceCache`: stale entries first, then fresh ones; `true` in the second
component is the `"Can't make enough room"` error. -/
def replaceCache (layer : InMemoryCacheLayer) (neededSize : Int) :
    InMemoryCacheLayer × Bool :=
  let stale := replaceStaleLoop layer neededSize layer.staleKeys
  if stale.2.2 then (stale.1, false)
  else
    let fresh := replaceFreshLoop stale.1 stale.2.1 (stale.1.entityStore.map Prod.fst)
    if fresh.2.2 then (fresh.1, false) else (fresh.1, true)

/-- The public `Set` (layer/inmemory.go lines 59-83).  `entryBytes` is the
fully read entry; the second component is the error result.  Note the source
passes `availableRoom - len(entryBytes)` (a negative number exactly when room
is insufficient) to `replaceCache`. -/
def imSet (layer : InMemoryCacheLayer) (key : GoStr) (entryBytes : List Nat)
    (ttl : Int) (now : Int) : InMemoryCacheLayer × Bool :=
  let availableRoom := layer.maxSize - layer.currentSize
  if (entryBytes.length : Int) > availableRoom then
    let rc := replaceCache layer (availableRoom - (entryBytes.length : Int))
    if rc.2 then (rc.1, true)
    else (imSetEntry rc.1 key { data := entryBytes, expiration := now + ttl }, false)
  else (imSetEntry layer key { data := entryBytes, expiration := now + ttl }, false)

/-- The public `Get`: returns the (possibly stale-marked) layer, the stored
bytes, and the remaining TTL (`none, 0` on a miss). -/
def imGet (layer : InMemoryCacheLayer) (key : GoStr) (now : Int) :
    InMemoryCacheLayer × Option (List Nat) × Int :=
  match layer.entityStore.find? (fun p => p.1 == key) with
  | some p =>
    let ttl := p.2.expiration - now
    let layer' :=
      if ttl ≤ 0 then
        if layer.staleKeys.contains key then layer
        else { layer with staleKeys := layer.staleKeys ++ [key] }
      else layer
    (layer', some p.2.data, ttl)
  | none => (layer, none, 0)

/-- The public `Delete` (always returns a nil error). -/
def imDelete (layer : InMemoryCacheLayer) (key : GoStr) : InMemoryCacheLayer :=
  let l := (imDeleteEntry layer key).1
  { l with staleKeys := l.staleKeys.filter (fun k => !(k == key)) }

/-- The public `Refresh` (layer/inmemory.go lines 92-102): update the
expiration of an existing entry; the source then returns the
entity-doesn't-exist error unconditionally (`true` = non-nil error). -/
def imRefresh (layer : InMemoryCacheLayer) (key : GoStr) (ttl : Int) (now : Int) :
    InMemoryCacheLayer × Bool :=
  let layer' :=
    match layer.entityStore.find? (fun p => p.1 == key) with
    | some _ =>
      { layer with
          entityStore := layer.entityStore.map fun q =>
            if q.1 == key then (q.1, { q.2 with expiration := now + ttl }) else q }
    | none => layer
  (layer', true)

/-! ## Cache controller (controller.go) -/

/-- The client `Cache-Control` scan state of `getCachedResponse`
(controller.go lines 284-325): the parsed `max-age` (−1 when absent or
unparseable) and the TTL comparison value. -/
structure ClientDirAcc where
  maxAge : Int
  compareTTL : Int
deriving DecidableEq, Repr

/-- The client-directive loop of `getCachedResponse` (controller.go lines
289-325), directive by directive, last assignment wins. -/
def clientDirScan (acc : ClientDirAcc) : List GoStr → ClientDirAcc
  | [] => acc
  | directive :: rest =>
    if goStartsWith directive (gs "max-age") then
      clientDirScan
        { acc with
            maxAge :=
              match goParseInt (goDropPre directive (gs "max-age=")) with
              | some v => v
              | none => -1 } rest
    else if goStartsWith directive (gs "max-stale") then
      clientDirScan
        { acc with
            compareTTL :=
              match goParseInt (goDropPre directive (gs "max-stale=")) with
              | some v => -v
              | none => minInt64 } rest
    else if goStartsWith directive (gs "min-fresh") then
      clientDirScan
        { acc with
            compareTTL :=
              match goParseInt (goDropPre directive (gs "min-fresh=")) with
              | some v => v
              | none => 0 } rest
    else clientDirScan acc rest

/-- The direct-serve condition of `getCachedResponse` (controller.go lines
281-349): the cached response is written to the client without origin
contact exactly when this is true.  Line 281 first sets
`cachedResponse.Request = req`. -/
def serveFromCacheGate (req : Request) (cachedResponse0 : Response) (ttl : Int)
    (parseTime : GoStr → Option Int) (now : Int) : Bool :=
  let cachedResponse := { cachedResponse0 with request := req }
  let acc := clientDirScan { maxAge := -1, compareTTL := 0 }
    (splitCacheControlHeader (headerValues req.headers ccKey))
  let clientWantsResponse :=
    if acc.compareTTL ≥ 0 ∧ acc.maxAge > -1 then
      !(getResponseAge cachedResponse parseTime now > acc.maxAge)
    else true
  let cachedResponseIsFresh := ttl > secondsToDur acc.compareTTL
  let cachedResponseHasNoCache := requestOrResponseHasNoCache cachedResponse
  let cachedResponseHasMustRevalidate := responseHasMustRevalidate cachedResponse
  cachedResponseIsFresh && !cachedResponseHasNoCache &&
    !cachedResponseHasMustRevalidate && clientWantsResponse

/-- A Go runtime panic. -/
inductive GoPanic where
  | nilPointerDereference
deriving DecidableEq, Repr

/-- What `getCachedResponse` sends to the client when a revalidation
round-trip fails. -/
inductive ClientOutcome where
  /-- `writeCachedResponse` of the (stripped) cached response. -/
  | servedStale (written : Headers)
  /-- `http.Error(resp, ..., http.StatusGatewayTimeout)`. -/
  | gatewayTimeout
  /-- the upstream 5xx validation response written verbatim. -/
  | upstreamError (statusCode : Int)
deriving DecidableEq, Repr

/-- The field-list `no-cache` stripping loop (controller.go lines 388-396 and
475-484): for every `no-cache="f1,f2"` directive of `directives`, delete the
named headers (`Header.Del` canonicalizes the name) from `h`. -/
def stripFieldListHeaders (directives : List GoStr) (h : Headers) : Headers :=
  directives.foldl
    (fun h directive =>
      if goStartsWith directive (gs "no-cache=") then
        let fieldList := goTrimChar (goDropPre directive (gs "no-cache=")) '"'
        (goSplitChar ',' fieldList).foldl
          (fun h fieldName => headerDel h (canonicalMIMEHeaderKey (goTrimSpace fieldName))) h
      else h)
    h

/-- The revalidation-failure branch of `getCachedResponse` (controller.go
lines 376-434), entered when the round-trip to the origin failed or returned
a status above 500.  `responseLocal` is the value of the controller's local
variable `response` at line 388 — the source declares it at line 249 and
assigns it only at lines 450/456, after this branch returns, so at line 388
it is always `nil` (`none`); reading `response.Header` there is a
nil-pointer dereference.  `validationResponse` is `none` exactly on a
transport error. -/
def onRevalidationFailure (cacheConfig : CacheConfig) (cachedResponse : Response)
    (responseLocal : Option Response) (validationResponse : Option Response)
    (parseTime : GoStr → Option Int) (now : Int) : Except GoPanic ClientOutcome :=
  if mayServeStaleResponse cacheConfig cachedResponse then
    match responseLocal with
    | none => Except.error GoPanic.nilPointerDereference
    | some r =>
      let stripped :=
        { cachedResponse with
            headers := stripFieldListHeaders
              (splitCacheControlHeader (headerValues r.headers ccKey))
              cachedResponse.headers }
      Except.ok (ClientOutcome.servedStale (writeCachedResponseHeaders stripped parseTime now))
  else
    match validationResponse with
    | none => Except.ok ClientOutcome.gatewayTimeout
    | some vr => Except.ok (ClientOutcome.upstreamError vr.statusCode)

/-! ### Invalidation on unsafe methods (controller.go lines 173-233)

The storage cascade is modelled as a single abstract store from cache key to
an entry holding the stored lines (only meaningful for `secondary-keys`
entries) and the absolute expiration instant. -/

/-- One stored cache entry as seen by the controller. -/
structure CtrlEntry where
  lines : List GoStr
  expiration : Int
deriving DecidableEq, Repr

/-- The controller's view of the storage cascade. -/
abbrev CtrlCache := List (GoStr × CtrlEntry)

def ctrlFind (st : CtrlCache) (key : GoStr) : Option CtrlEntry :=
  (st.find? (fun p => p.1 == key)).map (fun p => p.2)

/-- `findResponseInCache`, TTL component: remaining TTL of the entry, −1 when
absent. -/
def findResponseTTL (st : CtrlCache) (now : Int) (key : GoStr) : Int :=
  match ctrlFind st key with
  | some e => e.expiration - now
  | none => -1

/-- `findSecondaryKeysInCache`: the newline-separated field names stored
under `"secondary-keys" ++ key` (empty list when absent). -/
def findSecondaryKeys (st : CtrlCache) (key : GoStr) : List GoStr :=
  match ctrlFind st (gs "secondary-keys" ++ key) with
  | some e => e.lines
  | none => []

/-- `refreshCacheEntry`: `layer.Refresh` on each layer — update the
expiration of an existing entry, no-op when absent (the layer's error result
is logged and ignored). -/
def refreshCacheEntry (st : CtrlCache) (now : Int) (key : GoStr) (ttl : Int) : CtrlCache :=
  st.map fun p =>
    if p.1 == key then (p.1, { p.2 with expiration := now + ttl }) else p

/-- Controller.go lines 217-228: refresh one full cache key with
`time.Duration(-1)` when its current TTL is at least 0. -/
def invalidateKey (now : Int) (st : CtrlCache) (key : GoStr) : CtrlCache :=
  if 0 ≤ findResponseTTL st now key then refreshCacheEntry st now key (-1) else st

/-- Controller.go lines 203-229, inner loop body for one (method, url) pair:
look up the secondary keys of the primary key (substituting `[""]` when none
are known) and invalidate every variant. -/
def invalidateMethodURL (st : CtrlCache) (now : Int) (method url : GoStr) : CtrlCache :=
  let primaryKey := method ++ url
  let secondaryKeys := findSecondaryKeys st primaryKey
  let secondaryKeys := if secondaryKeys.length == 0 then [[]] else secondaryKeys
  secondaryKeys.foldl (fun st sk => invalidateKey now st (primaryKey ++ sk)) st

/-- Controller.go lines 179-201: the invalidation URI set — the request's
effective URI, plus the parsed `Location` and `Content-Location` headers
turned into pseudo-requests sharing the request's TLS flag and `Host`.
`urlParse` abstracts `url.Parse`. -/
def invalidationURLs (urlParse : GoStr → Option URL) (req : Request)
    (forwardConfig : ForwardConfig) (respHeaders : Headers) : List GoStr :=
  let urls := [getEffectiveURI req forwardConfig]
  let urls :=
    match urlParse (headerGet respHeaders (gs "Location")) with
    | some location =>
      urls ++ [getEffectiveURI
        { method := [], url := location, tls := req.tls, host := req.host, headers := [] }
        forwardConfig]
    | none => urls
  match urlParse (headerGet respHeaders (gs "Content-Location")) with
  | some contentLocation =>
    urls ++ [getEffectiveURI
      { method := [], url := contentLocation, tls := req.tls, host := req.host, headers := [] }
      forwardConfig]
  | none => urls

/-- The invalidation block of `proxyRequestToOrigin` (controller.go lines
173-233): on an unsafe request method and a non-error (200-399) origin
response, invalidate every variant of every safe method under every URI of
the invalidation set. -/
def proxyInvalidate (urlParse : GoStr → Option URL) (cacheConfig : CacheConfig)
    (forwardConfig : ForwardConfig) (req : Request) (resp : Response)
    (st : CtrlCache) (now : Int) : CtrlCache :=
  if !isMethodSafe cacheConfig req.method then
    if 200 ≤ resp.statusCode ∧ resp.statusCode < 400 then
      let urls := invalidationURLs urlParse req forwardConfig resp.headers
      urls.foldl
        (fun st url =>
          cacheConfig.safeMethods.foldl
            (fun st method => invalidateMethodURL st now method url) st)
        st
    else st
  else st

/-! ## Specification-side definitions

The following definitions are transcribed from the wording of the claims
(not from the source); the theorems below compare them with the
source-translated functions above. -/

/-- Claim C5's age rule: `max(0, now - parse(Date))`, plus the parsed `Age`
header value when it parses (the sum is an `int64` sum). -/
def specResponseAge (resp : Response) (parseTime : GoStr → Option Int) (now : Int) : Int :=
  let dateString := headerGet resp.headers dateKey
  let apparent :=
    match (if dateString == [] then none else parseTime dateString) with
    | some date => max 0 (durToSeconds (timeSub now date))
    | none => 0
  let ageHeader := headerGet resp.headers ageKey
  match (if ageHeader == [] then none else goParseInt ageHeader) with
  | some ageValue => wrap64 (ageValue + apparent)
  | none => apparent

/-- "an `s-maxage=N` / `max-age=N` directive parses": the first directive
carrying the given name whose argument parses, phrased as
filter-then-first. -/
def specFirstDirectiveValue (name : GoStr) (directives : List GoStr) : Option Int :=
  (directives.filterMap fun d =>
    if goStartsWith d name then goParseInt (goDropPre d (name ++ ['='])) else none).head?

/-- Claim C5: the freshness-lifetime rule as stated — `s-maxage`, then
`max-age`, then `Expires` against the effective date (parsed `Date`, falling
back to `now`), then the configured status-code default, else −1. -/
def specFreshnessLifetime (config : CacheConfig) (resp : Response)
    (parseTime : GoStr → Option Int) (now : Int) : Int :=
  let age := specResponseAge resp parseTime now
  let directives := splitCacheControlHeader (headerValues resp.headers ccKey)
  match specFirstDirectiveValue (gs "s-maxage") directives with
  | some n => secondsToDur (n - age)
  | none =>
    match specFirstDirectiveValue (gs "max-age") directives with
    | some n => secondsToDur (n - age)
    | none =>
      let dateString := headerGet resp.headers dateKey
      let effectiveDate :=
        match (if dateString == [] then none else parseTime dateString) with
        | some d => d
        | none => now
      let expiresString := headerGet resp.headers expiresKey
      if expiresString == [] then
        match statusDefaultTTL config resp.statusCode with
        | some d => d
        | none => -1
      else
        match parseTime expiresString with
        | some expires => wrap64 (timeSub expires effectiveDate - secondsToDur age)
        | none => -1

/-- Claim C6: the ten-condition storability decision in the stated
short-circuit order.  The directive names `s-maxage=`/`max-age=` in the
claim denote the directive family, matched by name prefix as throughout this
code base. -/
def specStorable (config : CacheConfig) (resp : Response)
    (parseTime : GoStr → Option Int) (now : Int) : Bool :=
  let req := resp.request
  let reqDirs := splitCacheControlHeader (headerValues req.headers ccKey)
  let respDirs := splitCacheControlHeader (headerValues resp.headers ccKey)
  let expiresString := headerGet resp.headers expiresKey
  if !isMethodSafe config req.method then false                                    -- 1
  else if !isMethodCacheable config req.method then false                          -- 2
  else if resp.statusCode == 206 && !config.cacheIncompleteResponses then false    -- 3
  else if reqDirs.any (fun d => d == gs "no-store") then false                     -- 4
  else if respDirs.any (fun d => d == gs "no-store" || d == gs "private") then false -- 5
  else if !(headerGet req.headers (gs "Authorization") == []) &&
      !(respDirs.any fun d =>
        d == gs "must-revalidate" || d == gs "public" || goStartsWith d (gs "s-maxage")) then
    false                                                                          -- 6
  else if headerGet resp.headers varyKey == gs "*" then false                      -- 7
  else if respDirs.any (fun d =>
      goStartsWith d (gs "s-maxage") || goStartsWith d (gs "max-age") || d == gs "public") then
    true                                                                           -- 8
  else if !(expiresString == []) && (parseTime expiresString).isNone then false    -- 9b
  else if !(expiresString == []) &&
      (match parseTime expiresString with | some e => e - now > 0 | none => false) then
    true                                                                           -- 9a
  else                                                                             -- 10
    config.cacheableFileExtensions.any (fun ext => goHasSuffix req.url.path ('.' :: ext)) &&
      (statusDefaultTTL config resp.statusCode).isSome

/-! ### Structured client/response directives (claims C3)

Claim C3 speaks of well-formed `max-age=N`, `max-stale[=N]`, `min-fresh=N`
and `no-cache` directives; they are modelled as an inductive type together
with their rendering into header values.  Numeric arguments are bounded by
`2^31` so that a rendered value parses back without `int64` overflow. -/

/-- Bound for structured directive arguments. -/
abbrev DirNum := Fin 2147483648

/-- A well-formed request `Cache-Control` directive of the kinds named by
claim C3. -/
inductive ReqDirective where
  | dMaxAge (n : DirNum)
  | dMaxStale (v : Option DirNum)
  | dMinFresh (n : DirNum)
  | dNoCache
deriving DecidableEq

/-- Rendering of a request directive as one `Cache-Control` header value. -/
def renderReqDirective : ReqDirective → GoStr
  | .dMaxAge n => gs "max-age=" ++ natToDec n.val
  | .dMaxStale none => gs "max-stale"
  | .dMaxStale (some n) => gs "max-stale=" ++ natToDec n.val
  | .dMinFresh n => gs "min-fresh=" ++ natToDec n.val
  | .dNoCache => gs "no-cache"

/-- A header field name usable inside a `no-cache="f1,f2"` field list:
non-empty, lower-case letters, digits and dashes. -/
def fieldTokenOK (s : GoStr) : Bool :=
  !s.isEmpty && s.all fun c => ('a' ≤ c ∧ c ≤ 'z') || ('0' ≤ c ∧ c ≤ '9') || c == '-'

abbrev FieldToken := { s : GoStr // fieldTokenOK s = true }

/-- A well-formed stored-response `Cache-Control` directive of the kinds
named by claims C1 and C3. -/
inductive RespDirective where
  | dNoCachePlain
  | dNoCacheFields (fields : List FieldToken)
  | dMustRevalidate
  | dProxyRevalidate
  | dSMaxAge (n : DirNum)
  | dRespMaxAge (n : DirNum)
  | dPublic
  | dPrivate
  | dNoStore
deriving DecidableEq

/-- Rendering of a response directive as one `Cache-Control` header value. -/
def renderRespDirective : RespDirective → GoStr
  | .dNoCachePlain => gs "no-cache"
  | .dNoCacheFields fields =>
    gs "no-cache=" ++ '"' :: (goJoinChar ',' (fields.map Subtype.val) ++ ['"'])
  | .dMustRevalidate => gs "must-revalidate"
  | .dProxyRevalidate => gs "proxy-revalidate"
  | .dSMaxAge n => gs "s-maxage=" ++ natToDec n.val
  | .dRespMaxAge n => gs "max-age=" ++ natToDec n.val
  | .dPublic => gs "public"
  | .dPrivate => gs "private"
  | .dNoStore => gs "no-store"

/-- Request headers built from structured directives: one `Cache-Control`
value per directive, a `Pragma` value list, and arbitrary further headers. -/
def mkReqHeaders (dirs : List ReqDirective) (pragmaVals : List GoStr) (rest : Headers) : Headers :=
  (ccKey, dirs.map renderReqDirective) :: (gs "Pragma", pragmaVals) :: rest

/-- Response headers built from structured directives. -/
def mkRespHeaders (dirs : List RespDirective) (rest : Headers) : Headers :=
  (ccKey, dirs.map renderRespDirective) :: rest

/-- Claim C3's compare-TTL, as stated: `none` in the first component means no
`max-age` was seen; `none` in the second means "unbounded negativity" from a
valueless `max-stale`. -/
def specClientStep (acc : Option DirNum × Option Int) (d : ReqDirective) :
    Option DirNum × Option Int :=
  match d with
  | .dMaxAge n => (some n, acc.2)
  | .dMaxStale (some n) => (acc.1, some (-(n.val : Int)))
  | .dMaxStale none => (acc.1, none)
  | .dMinFresh n => (acc.1, some (n.val : Int))
  | .dNoCache => acc

/-- The claim-side client-directive scan built from `specClientStep`. -/
def specClientScan (dirs : List ReqDirective) : Option DirNum × Option Int :=
  dirs.foldl specClientStep (none, some 0)

/-- Claim C3 exactly as stated: fresh (`ttl` exceeds the compare-TTL, any
`ttl` exceeding an unbounded-negative one), no unqualified `no-cache` on
either side, no `must-revalidate`/`proxy-revalidate`, and — when `max-age=N`
is present and `max-stale` absent — age at most `N`. -/
def claimServeCond (qdirs : List ReqDirective) (rdirs : List RespDirective)
    (age ttl : Int) : Bool :=
  let s := specClientScan qdirs
  let fresh :=
    match s.2 with
    | some n => ttl > n * 1000000000
    | none => true
  let noCache := (qdirs.any fun d => match d with | .dNoCache => true | _ => false) ||
    (rdirs.any fun d => match d with | .dNoCachePlain => true | _ => false)
  let mustReval := rdirs.any fun d =>
    match d with
    | .dMustRevalidate => true
    | .dProxyRevalidate => true
    | _ => false
  let maxStalePresent := qdirs.any fun d =>
    match d with
    | .dMaxStale _ => true
    | _ => false
  let wants :=
    match s.1 with
    | some n => if maxStalePresent then true else !(age > (n.val : Int))
    | none => true
  fresh && !noCache && !mustReval && wants

/-- Claim C3 as amended to match the source: the compare value of a valueless
`max-stale` is `math.MinInt64`, whose conversion to a duration overflows to
exactly 0; the response-side `no-cache` blocks in both unqualified and
field-list form; an empty request `Cache-Control` with `Pragma: no-cache`
also blocks; and the `max-age=N` bound applies exactly when the final
compare-TTL is non-negative. -/
def amendedServeCond (qdirs : List ReqDirective) (rdirs : List RespDirective)
    (pragmaVals : List GoStr) (age ttl : Int) : Bool :=
  let s := specClientScan qdirs
  -- A valueless `max-stale` stores `math.MinInt64`; converting that to a
  -- duration (`* time.Second`) overflows to exactly 0, so the freshness
  -- comparison uses 0 while the sign test of the `max-age` bound sees the
  -- negative stored value.
  let cmpStored : Int :=
    match s.2 with
    | some n => n
    | none => minInt64
  let fresh := ttl > (match s.2 with | some n => n * 1000000000 | none => 0)
  let pragmaFirst : GoStr :=
    match pragmaVals with
    | v :: _ => v
    | [] => []
  let reqNoCache := (qdirs.any fun d => match d with | .dNoCache => true | _ => false) ||
    (qdirs.isEmpty && pragmaFirst == gs "no-cache")
  let respNoCache := rdirs.any fun d =>
    match d with
    | .dNoCachePlain => true
    | .dNoCacheFields _ => true
    | _ => false
  let mustReval := rdirs.any fun d =>
    match d with
    | .dMustRevalidate => true
    | .dProxyRevalidate => true
    | _ => false
  let wants :=
    match s.1 with
    | some n => if 0 ≤ cmpStored then !(age > (n.val : Int)) else true
    | none => true
  fresh && !(respNoCache || reqNoCache) && !mustReval && wants

/-! ## Concrete instances used by counterexamples, code-bug evaluations and
witnesses -/

/-- A config with stale-on-error enabled (the `NewCacheConfig` defaults,
abridged to the fields that matter). -/
def exampleConfig : CacheConfig :=
  { cacheableMethods := [gs "GET"]
    safeMethods := [gs "GET", gs "HEAD", gs "OPTIONS", gs "TRACE"]
    statusCodeDefaultExpirationTimes := [(200, 7200000000000), (404, 180000000000)]
    cacheableFileExtensions := [gs "css", gs "js", gs "png"]
    cacheIncompleteResponses := false
    combinePartialResponses := false
    serveStaleOnError := true
    httpWarnings := true }

/-- An origin-form request `GET http://h/a`. -/
def exampleRequest : Request :=
  { method := gs "GET"
    url := { scheme := [], host := [], path := gs "/a", rawPath := [], rawQuery := [] }
    tls := false
    host := gs "h"
    headers := [] }

/-- A cached response whose `Cache-Control` is `no-cache="foo"` and which
carries a `Foo` header. -/
def c1CachedResponse : Response :=
  { statusCode := 200
    headers := [(ccKey, [gs "no-cache=\"foo\""]), (gs "Foo", [gs "x"]), (dateKey, [gs "d0"])]
    request := exampleRequest }

/-- A 503 revalidation response. -/
def c1ValidationResponse : Response :=
  { statusCode := 503, headers := [], request := exampleRequest }

/-- The forward config used by concrete scenarios. -/
def exampleForwardConfig : ForwardConfig := { host := gs "origin.example", tls := false }

/-- C4 scenario: a cache holding one fresh variant under the primary key of
`GET http://h/a` (no secondary keys stored). -/
def c4State : CtrlCache := [(gs "GEThttp://h/a", { lines := [], expiration := 100 })]

/-- C4 scenario: config whose only safe method is `GET`, so `POST` is
unsafe. -/
def c4Config : CacheConfig := { exampleConfig with safeMethods := [gs "GET"] }

/-- C4 scenario: the `POST http://h/a` request. -/
def c4Request : Request := { exampleRequest with method := gs "POST" }

/-- C4 scenario: the 200 origin response to the POST. -/
def c4Response : Response := { statusCode := 200, headers := [], request := c4Request }

/-- C6 scenario: a response with `Cache-Control: max-age=60` and an
unparseable `Expires` header on a `GET` request. -/
def c6Response : Response :=
  { statusCode := 200
    headers := [(ccKey, [gs "max-age=60"]), (expiresKey, [gs "garbage"])]
    request := exampleRequest }

/-- C9 counterexample: same request with a lower-cased method name. -/
def c9RequestLower : Request := { exampleRequest with method := gs "get" }

/-- C3 counterexample: a stored response whose only `Cache-Control` directive
is the field-list form `no-cache="foo"`. -/
def c3CachedResponse : Response :=
  { statusCode := 200
    headers := mkRespHeaders [.dNoCacheFields [⟨gs "foo", by decide⟩]] []
    request := exampleRequest }

/-- C3 counterexample: a plain request carrying no `Cache-Control` and no
`Pragma`. -/
def c3Request : Request := { exampleRequest with headers := mkReqHeaders [] [] [] }

/-! ## Order instances for the byte-wise string order -/

instance : IsTotal GoStr goStrLeRel := ⟨by
  intro a b
  induction a generalizing b with
  | nil => left; rfl
  | cons x xs ih =>
    cases b with
    | nil => right; rfl
    | cons y ys =>
      by_cases h1 : x.toNat < y.toNat
      · left; simp [goStrLeRel, goStrLe, h1]
      · by_cases h2 : y.toNat < x.toNat
        · right; simp [goStrLeRel, goStrLe, h1, h2]
        · rcases ih ys with h | h
          · left; simp [goStrLeRel, goStrLe, h1, h2]; exact h
          · right; simp [goStrLeRel, goStrLe, h1, h2]; exact h⟩

instance : IsTrans GoStr goStrLeRel := ⟨by
  have hchar : ∀ (u v : Char) (us vs : List Char),
      goStrLe (u :: us) (v :: vs) = true ↔
        (u.toNat < v.toNat ∨ (¬u.toNat < v.toNat ∧ ¬v.toNat < u.toNat ∧ goStrLe us vs = true)) := by
    intro u v us vs
    simp only [goStrLe]
    by_cases h1 : u.toNat < v.toNat
    · simp [h1]
    · by_cases h2 : v.toNat < u.toNat
      · simp [h1, h2]
      · simp [h1, h2]
  intro a b c hab hbc
  induction a generalizing b c with
  | nil => rfl
  | cons x xs ih =>
    cases b with
    | nil => simp [goStrLeRel, goStrLe] at hab
    | cons y ys =>
      cases c with
      | nil => simp [goStrLeRel, goStrLe] at hbc
      | cons z zs =>
        rw [goStrLeRel, hchar] at hab hbc ⊢
        rcases hab with hab | ⟨hab1, hab2, hab3⟩
        · rcases hbc with hbc | ⟨hbc1, hbc2, hbc3⟩
          · exact Or.inl (by omega)
          · exact Or.inl (by omega)
        · rcases hbc with hbc | ⟨hbc1, hbc2, hbc3⟩
          · exact Or.inl (by omega)
          · exact Or.inr ⟨by omega, by omega, ih ys zs hab3 hbc3⟩⟩

instance : IsAntisymm GoStr goStrLeRel := ⟨by
  have hchar : ∀ (u v : Char) (us vs : List Char),
      goStrLe (u :: us) (v :: vs) = true ↔
        (u.toNat < v.toNat ∨ (¬u.toNat < v.toNat ∧ ¬v.toNat < u.toNat ∧ goStrLe us vs = true)) := by
    intro u v us vs
    simp only [goStrLe]
    by_cases h1 : u.toNat < v.toNat
    · simp [h1]
    · by_cases h2 : v.toNat < u.toNat
      · simp [h1, h2]
      · simp [h1, h2]
  intro a b hab hba
  induction a generalizing b with
  | nil =>
    cases b with
    | nil => rfl
    | cons y ys => simp [goStrLeRel, goStrLe] at hba
  | cons x xs ih =>
    cases b with
    | nil => simp [goStrLeRel, goStrLe] at hab
    | cons y ys =>
      rw [goStrLeRel, hchar] at hab hba
      rcases hab with hab | ⟨hab1, hab2, hab3⟩
      · rcases hba with hba | ⟨hba1, hba2, hba3⟩ <;> omega
      · rcases hba with hba | ⟨hba1, hba2, hba3⟩
        · omega
        · have hx : x = y := by
            have hn : x.toNat = y.toNat := by omega
            calc x = Char.ofNat x.toNat := (Char.ofNat_toNat x).symm
              _ = Char.ofNat y.toNat := by rw [hn]
              _ = y := Char.ofNat_toNat y
          have htail : xs = ys := ih ys hab3 hba3
          rw [hx, htail]⟩

/-- The effect of `refreshCacheEntry key (time.Duration(-1))` on one entry:
expiration becomes `now + (-1)` — one nanosecond in the past. -/
def staleExp (now : Int) (e : CtrlEntry) : CtrlEntry :=
  { e with expiration := now + (-1) }

instance : DecidableEq (Except GoPanic ClientOutcome) := fun x y =>
  match x, y with
  | .ok a, .ok b => decidable_of_iff (a = b) (by simp)
  | .error a, .error b => decidable_of_iff (a = b) (by simp)
  | .ok _, .error _ => isFalse (by simp)
  | .error _, .ok _ => isFalse (by simp)

/-! ### Proof-side helpers for the key-determinism analysis (claim C9) -/

/-- The decoded (key, value) pair of one query segment: `none` for the empty
segment and for segments whose key or value has a bad escape. -/
def decodeSeg (seg : GoStr) : Option (GoStr × GoStr) :=
  if seg.isEmpty then none
  else
    match queryUnescape (cutAtEq seg).1 with
    | none => none
    | some k =>
      match queryUnescape (cutAtEq seg).2 with
      | none => none
      | some v => some (k, v)

/-- Whether some non-empty segment fails to decode (the `err` of
`url.ParseQuery`). -/
def segsHaveError (segs : List GoStr) : Bool :=
  segs.any fun s => !s.isEmpty && (decodeSeg s).isNone

/-- Folding decoded pairs into a `url.Values` map. -/
def buildValues (pairs : List (GoStr × GoStr)) (m0 : List (GoStr × List GoStr)) :
    List (GoStr × List GoStr) :=
  pairs.foldl (fun m kv => valuesAppend m kv.1 kv.2) m0

/-! ### Proof-side helpers for the serve-from-cache analysis (claim C3) -/

/-- The effect of one structured request directive on the client-directive
scan state (last assignment wins, mirroring the source loop). -/
def reqDirStep (acc : ClientDirAcc) (d : ReqDirective) : ClientDirAcc :=
  match d with
  | .dMaxAge n => { acc with maxAge := (n.val : Int) }
  | .dMaxStale (some n) => { acc with compareTTL := -(n.val : Int) }
  | .dMaxStale none => { acc with compareTTL := minInt64 }
  | .dMinFresh n => { acc with compareTTL := (n.val : Int) }
  | .dNoCache => acc

/-- The `maxAge` field represented by the claim-side scan state. -/
def repMa (o : Option DirNum) : Int :=
  match o with
  | some n => (n.val : Int)
  | none => -1

/-- The `compareTTL` field represented by the claim-side scan state. -/
def repCt (o : Option Int) : Int :=
  match o with
  | some v => v
  | none => minInt64

/-! # Theorems -/

/-- C10: `getSecondaryCacheKey` sorts the caller's slice of secondary key
field names in place (`sort.Strings`); after the call the slice — returned
explicitly by the model — is the ascending lexicographic sort of the input,
hence sorted and a permutation of it, regardless of the original order. -/
theorem getSecondaryCacheKey_sorts_fields_in_place (fields : List GoStr) (req : Request) :
    (getSecondaryCacheKey fields req).1 = sortStrings fields ∧
    List.Sorted goStrLeRel (getSecondaryCacheKey fields req).1 ∧
    (getSecondaryCacheKey fields req).1.Perm fields := by
  refine ⟨rfl, ?_, ?_⟩
  · show List.Sorted goStrLeRel (sortStrings fields)
    exact List.sorted_insertionSort goStrLeRel fields
  · show (sortStrings fields).Perm fields
    exact List.perm_insertionSort goStrLeRel fields

/-- C8, counterexample: the forwarder does not set the outbound URL host to
`ForwardConfig.Host` — with forward host `origin.example` and request host
`client.example` the outbound URL host is `client.example`. -/
theorem proxy_host_is_not_forward_host :
    (rewriteOutboundURL exampleForwardConfig exampleRequest).1.host ≠
        exampleForwardConfig.host ∧
    (rewriteOutboundURL exampleForwardConfig exampleRequest).1.host = gs "h" := by
  decide

/-- C8 as amended: `proxyToOrigin` sets the outbound URL scheme from
`ForwardConfig.TLS` (https exactly when TLS is set) but sets both the
outbound URL host and the outbound request `Host` to the client request's
`Host`; `ForwardConfig.Host` is not consulted. -/
theorem proxy_rewrite_scheme_and_host (forwardConfig : ForwardConfig) (req : Request) :
    (rewriteOutboundURL forwardConfig req).1.scheme
        = (if forwardConfig.tls then gs "https" else gs "http") ∧
    (rewriteOutboundURL forwardConfig req).1.host = req.host ∧
    (rewriteOutboundURL forwardConfig req).2 = req.host :=
  ⟨rfl, rfl, rfl⟩

/-- C2: evaluation of the in-memory `Set` at the failing input.  With
`MaxSize = 10`, after a 1-byte entry is stored, storing a 20-byte entry
*succeeds* (the sign error in the `replaceCache` argument makes the eviction
loop exit after a single deletion) and leaves `currentSize = 20 > 10`,
violating the capacity bound the claim states. -/
theorem inmemory_capacity_overrun :
    (let r1 := imSet (newInMemoryCacheLayer 10) (gs "a") [1] 1000 0
     let r2 := imSet r1.1 (gs "b")
       [1, 2, 3, 4, 5, 6, 7, 8, 9, 10, 11, 12, 13, 14, 15, 16, 17, 18, 19, 20] 1000 0
     r1.2 = false ∧ r2.2 = false ∧ r2.1.currentSize = 20 ∧ r2.1.maxSize = 10) := by
  decide

/-- C7: evaluation of the in-memory `Refresh` at the failing input.  The
expiration of the existing key `a` is correctly updated to `now + ttl`, yet
a non-nil error is returned; the absent key is a no-op but also returns the
error — `Refresh` never returns nil. -/
theorem inmemory_refresh_always_errors :
    (let layer : InMemoryCacheLayer :=
       { maxSize := 100, entityStore := [(gs "a", { data := [1, 2], expiration := 100 })],
         currentSize := 2, staleKeys := [] }
     (imRefresh layer (gs "a") 5 50).1.entityStore
         = [(gs "a", { data := [1, 2], expiration := 55 })] ∧
       (imRefresh layer (gs "a") 5 50).2 = true ∧
       (imRefresh layer (gs "zz") 5 50).1 = layer ∧
       (imRefresh layer (gs "zz") 5 50).2 = true) := by
  decide

/-- C1: evaluation of the serve-stale-on-error branch at the failing input.
The stored response (`Cache-Control: no-cache="foo"`) passes
`mayServeStaleResponse`, but the branch dereferences the still-nil local
variable `response` at controller.go:388 and panics instead of serving; the
third conjunct shows what stripping the field-listed header from the
*cached* response (as the spec states, and as the parallel code at line 475
does) would have produced. -/
theorem serve_stale_nil_dereference :
    mayServeStaleResponse exampleConfig c1CachedResponse = true ∧
    onRevalidationFailure exampleConfig c1CachedResponse none (some c1ValidationResponse)
        (fun _ => none) 0 = Except.error GoPanic.nilPointerDereference ∧
    stripFieldListHeaders
        (splitCacheControlHeader (headerValues c1CachedResponse.headers ccKey))
        c1CachedResponse.headers
      = [(ccKey, [gs "no-cache=\"foo\""]), (dateKey, [gs "d0"])] := by
  decide

/-! ### Lemmas about the invalidation block (claim C4) -/

theorem staleExp_idem (now : Int) (e : CtrlEntry) :
    staleExp now (staleExp now e) = staleExp now e := rfl

/-- Composing two "unchanged or refreshed" steps with an idempotent update. -/
theorem findCases_step (f : CtrlEntry → CtrlEntry) (hf : ∀ e, f (f e) = f e)
    {a b c : Option CtrlEntry} (h1 : b = a ∨ b = a.map f) (h2 : c = b ∨ c = b.map f) :
    c = a ∨ c = a.map f := by
  have hmm : (a.map f).map f = a.map f := by
    cases a with
    | none => rfl
    | some e => simp [hf]
  rcases h1 with h1 | h1 <;> rcases h2 with h2 | h2
  · exact Or.inl (h2.trans h1)
  · exact Or.inr (by rw [h2, h1])
  · exact Or.inr (h2.trans h1)
  · exact Or.inr (by rw [h2, h1, hmm])

theorem ctrlFind_refreshCacheEntry (st : CtrlCache) (now : Int) (key : GoStr) (ttl : Int)
    (k : GoStr) :
    ctrlFind (refreshCacheEntry st now key ttl) k =
      if k = key then (ctrlFind st k).map (fun e => { e with expiration := now + ttl })
      else ctrlFind st k := by
  unfold refreshCacheEntry ctrlFind
  rw [List.find?_map]
  have hpred : ((fun p : GoStr × CtrlEntry => p.1 == k) ∘ fun p =>
      if p.1 == key then (p.1, { p.2 with expiration := now + ttl }) else p)
      = fun p : GoStr × CtrlEntry => p.1 == k := by
    funext p
    by_cases h : p.1 = key <;> simp [h]
  rw [hpred]
  cases hfind : st.find? (fun p => p.1 == k) with
  | none => simp
  | some p =>
    have hp := List.find?_some hfind
    have hpk : p.1 = k := by simpa using hp
    by_cases hk : k = key
    · have hkey : p.1 = key := by rw [hpk, hk]
      simp [hkey, hk]
    · have hkey : ¬p.1 = key := by rw [hpk]; exact hk
      simp [hkey, hk]

theorem invalidateKey_cases (now : Int) (st : CtrlCache) (key k : GoStr) :
    ctrlFind (invalidateKey now st key) k = ctrlFind st k ∨
    ctrlFind (invalidateKey now st key) k = (ctrlFind st k).map (staleExp now) := by
  unfold invalidateKey
  by_cases h : 0 ≤ findResponseTTL st now key
  · rw [if_pos h, ctrlFind_refreshCacheEntry]
    by_cases hk : k = key
    · right; rw [if_pos hk]; rfl
    · left; rw [if_neg hk]
  · rw [if_neg h]; left; rfl

theorem invalidateKey_self (now : Int) (st : CtrlCache) (key : GoStr)
    (h : 0 ≤ findResponseTTL st now key) :
    ctrlFind (invalidateKey now st key) key = (ctrlFind st key).map (staleExp now) := by
  unfold invalidateKey
  rw [if_pos h, ctrlFind_refreshCacheEntry, if_pos rfl]
  rfl

theorem findSecondaryKeys_invalidateKey (now : Int) (st : CtrlCache) (key p : GoStr) :
    findSecondaryKeys (invalidateKey now st key) p = findSecondaryKeys st p := by
  unfold findSecondaryKeys invalidateKey
  by_cases h : 0 ≤ findResponseTTL st now key
  · rw [if_pos h, ctrlFind_refreshCacheEntry]
    by_cases hk : gs "secondary-keys" ++ p = key
    · rw [if_pos hk]
      cases ctrlFind st (gs "secondary-keys" ++ p) <;> rfl
    · rw [if_neg hk]
  · rw [if_neg h]

/-- The TTL read off a find result that was refreshed to one nanosecond in
the past is negative. -/
theorem ttl_of_staleExp (now : Int) (o : Option CtrlEntry) :
    (match o.map (staleExp now) with
      | some e => e.expiration - now
      | none => (-1 : Int)) ≤ 0 := by
  cases o with
  | none => simp
  | some e =>
    show now + (-1) - now ≤ 0
    omega

theorem findResponseTTL_eq_match (st : CtrlCache) (now : Int) (k : GoStr) :
    findResponseTTL st now k =
      (match ctrlFind st k with
        | some e => e.expiration - now
        | none => (-1 : Int)) := rfl

theorem foldl_invKey_cases (now : Int) (ks : List GoStr) (st : CtrlCache) (k : GoStr) :
    ctrlFind (ks.foldl (invalidateKey now) st) k = ctrlFind st k ∨
    ctrlFind (ks.foldl (invalidateKey now) st) k = (ctrlFind st k).map (staleExp now) := by
  induction ks generalizing st with
  | nil => left; rfl
  | cons key ks ih =>
    simp only [List.foldl_cons]
    exact findCases_step (staleExp now) (staleExp_idem now)
      (invalidateKey_cases now st key k) (ih (invalidateKey now st key))

theorem foldl_invKey_keys (now : Int) (ks : List GoStr) (st : CtrlCache) (p : GoStr) :
    findSecondaryKeys (ks.foldl (invalidateKey now) st) p = findSecondaryKeys st p := by
  induction ks generalizing st with
  | nil => rfl
  | cons key ks ih =>
    simp only [List.foldl_cons]
    rw [ih, findSecondaryKeys_invalidateKey]

theorem foldl_invKey_exact (now : Int) (ks : List GoStr) (st : CtrlCache) (k : GoStr)
    (hk : k ∈ ks) (h : 0 ≤ findResponseTTL st now k) :
    ctrlFind (ks.foldl (invalidateKey now) st) k = (ctrlFind st k).map (staleExp now) := by
  induction ks generalizing st with
  | nil => cases hk
  | cons key ks ih =>
    simp only [List.foldl_cons]
    rcases List.mem_cons.mp hk with hk1 | hk1
    · subst hk1
      have h1 := invalidateKey_self now st k h
      rcases foldl_invKey_cases now ks (invalidateKey now st k) k with h2 | h2
      · rw [h2, h1]
      · rw [h2, h1]
        cases ctrlFind st k with
        | none => rfl
        | some e => simp [staleExp_idem]
    · rcases invalidateKey_cases now st key k with h1 | h1
      · have h' : 0 ≤ findResponseTTL (invalidateKey now st key) now k := by
          rw [findResponseTTL_eq_match, h1, ← findResponseTTL_eq_match]
          exact h
        rw [ih (invalidateKey now st key) hk1 h', h1]
      · rcases foldl_invKey_cases now ks (invalidateKey now st key) k with h2 | h2
        · rw [h2, h1]
        · rw [h2, h1]
          cases ctrlFind st k with
          | none => rfl
          | some e => simp [staleExp_idem]

theorem foldl_invKey_ttl_le (now : Int) (ks : List GoStr) (st : CtrlCache) (k : GoStr)
    (hk : k ∈ ks) :
    findResponseTTL (ks.foldl (invalidateKey now) st) now k ≤ 0 := by
  by_cases h : 0 ≤ findResponseTTL st now k
  · rw [findResponseTTL_eq_match, foldl_invKey_exact now ks st k hk h]
    exact ttl_of_staleExp now (ctrlFind st k)
  · rcases foldl_invKey_cases now ks st k with h1 | h1
    · rw [findResponseTTL_eq_match, h1, ← findResponseTTL_eq_match]; omega
    · rw [findResponseTTL_eq_match, h1]
      exact ttl_of_staleExp now (ctrlFind st k)

theorem invalidateMethodURL_eq (st : CtrlCache) (now : Int) (m u : GoStr) :
    invalidateMethodURL st now m u =
      ((if (findSecondaryKeys st (m ++ u)).length == 0 then [[]]
        else findSecondaryKeys st (m ++ u)).map
          (fun sk => (m ++ u) ++ sk)).foldl (invalidateKey now) st := by
  unfold invalidateMethodURL
  rw [List.foldl_map]

theorem invMU_cases (st : CtrlCache) (now : Int) (m u k : GoStr) :
    ctrlFind (invalidateMethodURL st now m u) k = ctrlFind st k ∨
    ctrlFind (invalidateMethodURL st now m u) k = (ctrlFind st k).map (staleExp now) := by
  rw [invalidateMethodURL_eq]
  exact foldl_invKey_cases now _ st k

theorem invMU_keys (st : CtrlCache) (now : Int) (m u p : GoStr) :
    findSecondaryKeys (invalidateMethodURL st now m u) p = findSecondaryKeys st p := by
  rw [invalidateMethodURL_eq]
  exact foldl_invKey_keys now _ st p

theorem invMU_exact (st : CtrlCache) (now : Int) (m u k : GoStr)
    (hk : k ∈ (if (findSecondaryKeys st (m ++ u)).length == 0 then [[]]
        else findSecondaryKeys st (m ++ u)).map (fun sk => (m ++ u) ++ sk))
    (h : 0 ≤ findResponseTTL st now k) :
    ctrlFind (invalidateMethodURL st now m u) k = (ctrlFind st k).map (staleExp now) := by
  rw [invalidateMethodURL_eq]
  exact foldl_invKey_exact now _ st k hk h

/-! Lifting the same three lemmas through the fold over safe methods. -/

theorem foldMethods_cases (now : Int) (ms : List GoStr) (u : GoStr) (st : CtrlCache)
    (k : GoStr) :
    ctrlFind (ms.foldl (fun st m => invalidateMethodURL st now m u) st) k = ctrlFind st k ∨
    ctrlFind (ms.foldl (fun st m => invalidateMethodURL st now m u) st) k
      = (ctrlFind st k).map (staleExp now) := by
  induction ms generalizing st with
  | nil => left; rfl
  | cons m ms ih =>
    simp only [List.foldl_cons]
    exact findCases_step (staleExp now) (staleExp_idem now)
      (invMU_cases st now m u k) (ih (invalidateMethodURL st now m u))

theorem foldMethods_keys (now : Int) (ms : List GoStr) (u : GoStr) (st : CtrlCache)
    (p : GoStr) :
    findSecondaryKeys (ms.foldl (fun st m => invalidateMethodURL st now m u) st) p
      = findSecondaryKeys st p := by
  induction ms generalizing st with
  | nil => rfl
  | cons m ms ih =>
    simp only [List.foldl_cons]
    rw [ih, invMU_keys]

theorem foldMethods_exact (now : Int) (u m k : GoStr) : ∀ (ms : List GoStr), m ∈ ms →
    ∀ (st : CtrlCache),
    k ∈ (if (findSecondaryKeys st (m ++ u)).length == 0 then [[]]
        else findSecondaryKeys st (m ++ u)).map (fun sk => (m ++ u) ++ sk) →
    0 ≤ findResponseTTL st now k →
    ctrlFind (ms.foldl (fun st m => invalidateMethodURL st now m u) st) k
      = (ctrlFind st k).map (staleExp now) := by
  intro ms
  induction ms with
  | nil => intro hm; cases hm
  | cons m' ms ih =>
    intro hm st hk h
    simp only [List.foldl_cons]
    rcases List.mem_cons.mp hm with hm1 | hm1
    · subst hm1
      have h1 := invMU_exact st now m u k hk h
      rcases foldMethods_cases now ms u (invalidateMethodURL st now m u) k with h2 | h2
      · rw [h2, h1]
      · rw [h2, h1]
        cases ctrlFind st k with
        | none => rfl
        | some e => simp [staleExp_idem]
    · rcases invMU_cases st now m' u k with h1 | h1
      · have h' : 0 ≤ findResponseTTL (invalidateMethodURL st now m' u) now k := by
          rw [findResponseTTL_eq_match, h1, ← findResponseTTL_eq_match]; exact h
        have hk' : k ∈ (if (findSecondaryKeys (invalidateMethodURL st now m' u) (m ++ u)).length
            == 0 then [[]]
            else findSecondaryKeys (invalidateMethodURL st now m' u) (m ++ u)).map
              (fun sk => (m ++ u) ++ sk) := by
          rw [invMU_keys]; exact hk
        rw [ih hm1 (invalidateMethodURL st now m' u) hk' h', h1]
      · rcases foldMethods_cases now ms u (invalidateMethodURL st now m' u) k with h2 | h2
        · rw [h2, h1]
        · rw [h2, h1]
          cases ctrlFind st k with
          | none => rfl
          | some e => simp [staleExp_idem]

/-! Lifting through the fold over the invalidation URL set. -/

theorem foldURLs_cases (now : Int) (urls : List GoStr) (ms : List GoStr) (st : CtrlCache)
    (k : GoStr) :
    ctrlFind (urls.foldl (fun st u => ms.foldl
        (fun st m => invalidateMethodURL st now m u) st) st) k = ctrlFind st k ∨
    ctrlFind (urls.foldl (fun st u => ms.foldl
        (fun st m => invalidateMethodURL st now m u) st) st) k
      = (ctrlFind st k).map (staleExp now) := by
  induction urls generalizing st with
  | nil => left; rfl
  | cons u urls ih =>
    simp only [List.foldl_cons]
    exact findCases_step (staleExp now) (staleExp_idem now)
      (foldMethods_cases now ms u st k) (ih _)

theorem foldURLs_exact (now : Int) (ms : List GoStr) (u m k : GoStr) :
    ∀ (urls : List GoStr), u ∈ urls → m ∈ ms →
    ∀ (st : CtrlCache),
    k ∈ (if (findSecondaryKeys st (m ++ u)).length == 0 then [[]]
        else findSecondaryKeys st (m ++ u)).map (fun sk => (m ++ u) ++ sk) →
    0 ≤ findResponseTTL st now k →
    ctrlFind (urls.foldl (fun st u => ms.foldl
        (fun st m => invalidateMethodURL st now m u) st) st) k
      = (ctrlFind st k).map (staleExp now) := by
  intro urls
  induction urls with
  | nil => intro hu; cases hu
  | cons u' urls ih =>
    intro hu hm st hk h
    simp only [List.foldl_cons]
    rcases List.mem_cons.mp hu with hu1 | hu1
    · subst hu1
      have h1 := foldMethods_exact now u m k ms hm st hk h
      rcases foldURLs_cases now urls ms (ms.foldl (fun st m => invalidateMethodURL st now m u) st)
          k with h2 | h2
      · rw [h2, h1]
      · rw [h2, h1]
        cases ctrlFind st k with
        | none => rfl
        | some e => simp [staleExp_idem]
    · rcases foldMethods_cases now ms u' st k with h1 | h1
      · have h' : 0 ≤ findResponseTTL (ms.foldl
            (fun st m => invalidateMethodURL st now m u') st) now k := by
          rw [findResponseTTL_eq_match, h1, ← findResponseTTL_eq_match]; exact h
        have hk' : k ∈ (if (findSecondaryKeys (ms.foldl
            (fun st m => invalidateMethodURL st now m u') st) (m ++ u)).length == 0 then [[]]
            else findSecondaryKeys (ms.foldl
              (fun st m => invalidateMethodURL st now m u') st) (m ++ u)).map
                (fun sk => (m ++ u) ++ sk) := by
          rw [foldMethods_keys]; exact hk
        rw [ih hu1 hm _ hk' h', h1]
      · rcases foldURLs_cases now urls ms (ms.foldl
            (fun st m => invalidateMethodURL st now m u') st) k with h2 | h2
        · rw [h2, h1]
        · rw [h2, h1]
          cases ctrlFind st k with
          | none => rfl
          | some e => simp [staleExp_idem]

/-- C4, counterexample: the invalidation refresh uses `time.Duration(-1)` —
one **nanosecond**, not the one **second** the claim states.  In the concrete
scenario (unsafe `POST http://h/a`, 200 response, one fresh cached variant
under `GEThttp://h/a`, `now = 0`) the refreshed expiration is `-1`, not
`-1000000000`. -/
theorem c4_refresh_is_one_nanosecond :
    ctrlFind (proxyInvalidate (fun _ => none) c4Config exampleForwardConfig c4Request
        c4Response c4State 0) (gs "GEThttp://h/a")
      = some { lines := [], expiration := -1 } ∧
    ctrlFind (proxyInvalidate (fun _ => none) c4Config exampleForwardConfig c4Request
        c4Response c4State 0) (gs "GEThttp://h/a")
      ≠ some { lines := [], expiration := -1000000000 } := by
  decide

/-- C4 as amended: on an unsafe-method request whose origin response has a
status in 200-399, every variant key — every URI in the invalidation set,
every safe method, every known secondary key (or the empty one) — ends with
TTL ≤ 0 on its next lookup; invalidated entries are not deleted; and a
variant whose TTL was non-negative is refreshed with `time.Duration(-1)`,
i.e. its expiration becomes `now - 1` nanosecond (not `now` minus one
second). -/
theorem c4_invalidation_amended (urlParse : GoStr → Option URL) (cacheConfig : CacheConfig)
    (forwardConfig : ForwardConfig) (req : Request) (resp : Response) (st : CtrlCache)
    (now : Int) (u m k : GoStr)
    (hUnsafe : isMethodSafe cacheConfig req.method = false)
    (hLo : 200 ≤ resp.statusCode) (hHi : resp.statusCode < 400)
    (hu : u ∈ invalidationURLs urlParse req forwardConfig resp.headers)
    (hm : m ∈ cacheConfig.safeMethods)
    (hk : k ∈ (if (findSecondaryKeys st (m ++ u)).length == 0 then [[]]
        else findSecondaryKeys st (m ++ u)).map (fun sk => (m ++ u) ++ sk)) :
    findResponseTTL (proxyInvalidate urlParse cacheConfig forwardConfig req resp st now)
        now k ≤ 0 ∧
    ((ctrlFind st k).isSome →
      (ctrlFind (proxyInvalidate urlParse cacheConfig forwardConfig req resp st now) k).isSome) ∧
    (0 ≤ findResponseTTL st now k →
      ctrlFind (proxyInvalidate urlParse cacheConfig forwardConfig req resp st now) k
        = (ctrlFind st k).map (staleExp now)) := by
  have hst : proxyInvalidate urlParse cacheConfig forwardConfig req resp st now
      = (invalidationURLs urlParse req forwardConfig resp.headers).foldl
          (fun st u => cacheConfig.safeMethods.foldl
            (fun st m => invalidateMethodURL st now m u) st) st := by
    unfold proxyInvalidate
    rw [if_pos (show (!isMethodSafe cacheConfig req.method) = true by rw [hUnsafe]; rfl),
      if_pos ⟨hLo, hHi⟩]
  rw [hst]
  refine ⟨?_, ?_, ?_⟩
  · by_cases h : 0 ≤ findResponseTTL st now k
    · rw [findResponseTTL_eq_match,
        foldURLs_exact now cacheConfig.safeMethods u m k _ hu hm st hk h]
      exact ttl_of_staleExp now (ctrlFind st k)
    · rcases foldURLs_cases now (invalidationURLs urlParse req forwardConfig resp.headers)
          cacheConfig.safeMethods st k with h1 | h1
      · rw [findResponseTTL_eq_match, h1, ← findResponseTTL_eq_match]; omega
      · rw [findResponseTTL_eq_match, h1]
        exact ttl_of_staleExp now (ctrlFind st k)
  · intro hsome
    rcases foldURLs_cases now (invalidationURLs urlParse req forwardConfig resp.headers)
        cacheConfig.safeMethods st k with h1 | h1
    · rw [h1]; exact hsome
    · rw [h1]
      cases hfind : ctrlFind st k with
      | none => rw [hfind] at hsome; simp at hsome
      | some e => rfl
  · intro h
    exact foldURLs_exact now cacheConfig.safeMethods u m k _ hu hm st hk h

/-- Witness for C4: the amended theorem applied at the concrete invalidation
scenario (`POST http://h/a`, status 200, fresh variant under
`GEThttp://h/a`, no stored secondary keys, `now = 0`). -/
theorem c4_invalidation_amended_witness :
    findResponseTTL (proxyInvalidate (fun _ => none) c4Config exampleForwardConfig c4Request
        c4Response c4State 0) 0 (gs "GEThttp://h/a") ≤ 0 ∧
    ((ctrlFind c4State (gs "GEThttp://h/a")).isSome →
      (ctrlFind (proxyInvalidate (fun _ => none) c4Config exampleForwardConfig c4Request
          c4Response c4State 0) (gs "GEThttp://h/a")).isSome) ∧
    (0 ≤ findResponseTTL c4State 0 (gs "GEThttp://h/a") →
      ctrlFind (proxyInvalidate (fun _ => none) c4Config exampleForwardConfig c4Request
          c4Response c4State 0) (gs "GEThttp://h/a")
        = (ctrlFind c4State (gs "GEThttp://h/a")).map (staleExp 0)) :=
  c4_invalidation_amended (fun _ => none) c4Config exampleForwardConfig c4Request c4Response
    c4State 0 (gs "http://h/a") (gs "GET") (gs "GEThttp://h/a")
    (by decide) (by decide) (by decide) (by decide) (by decide) (by decide)

/-! ### Lemmas for the freshness calculator (claim C5) -/

theorem findSome?_eq_head?_filterMap (f : GoStr → Option Int) (l : List GoStr) :
    l.findSome? f = (l.filterMap f).head? := by
  induction l with
  | nil => rfl
  | cons a l ih =>
    cases hfa : f a with
    | none => rw [List.findSome?_cons, List.filterMap_cons, hfa]; exact ih
    | some b => rw [List.findSome?_cons, List.filterMap_cons, hfa]; rfl

theorem specFirst_smaxage (dirs : List GoStr) :
    specFirstDirectiveValue (gs "s-maxage") dirs = ttlSMaxAgeScan dirs := by
  unfold specFirstDirectiveValue ttlSMaxAgeScan
  rw [← findSome?_eq_head?_filterMap]
  rw [show gs "s-maxage" ++ ['='] = gs "s-maxage=" from rfl]

theorem specFirst_maxage (dirs : List GoStr) :
    specFirstDirectiveValue (gs "max-age") dirs = ttlMaxAgeScan dirs := by
  unfold specFirstDirectiveValue ttlMaxAgeScan
  rw [← findSome?_eq_head?_filterMap]
  rw [show gs "max-age" ++ ['='] = gs "max-age=" from rfl]

theorem getResponseAge_eq_spec (resp : Response) (parseTime : GoStr → Option Int) (now : Int) :
    getResponseAge resp parseTime now = specResponseAge resp parseTime now := by
  unfold getResponseAge specResponseAge
  cases hd : headerGet resp.headers dateKey == [] with
  | true =>
    simp only [hd, Bool.not_true, Bool.false_eq_true, if_false, if_true]
    cases ha : headerGet resp.headers ageKey == [] with
    | true => simp [ha]
    | false => simp [ha]
  | false =>
    simp only [hd, Bool.not_false, if_true, Bool.false_eq_true, if_false]
    cases hp : parseTime (headerGet resp.headers dateKey) with
    | none =>
      cases ha : headerGet resp.headers ageKey == [] with
      | true => simp [ha, hp]
      | false => simp [ha, hp]
    | some d =>
      have hmax : (if durToSeconds (timeSub now d) < 0 then (0 : Int)
          else durToSeconds (timeSub now d)) = max 0 (durToSeconds (timeSub now d)) := by
        rcases le_or_lt 0 (durToSeconds (timeSub now d)) with h | h
        · rw [if_neg (by omega), max_eq_right h]
        · rw [if_pos h, max_eq_left (by omega)]
      cases ha : headerGet resp.headers ageKey == [] with
      | true => simp [ha, hp, hmax]
      | false => simp [ha, hp, hmax]

/-- C5: the freshness-lifetime computation matches the claim's rule exactly:
`s-maxage` first, then `max-age` (first parsing directive each), then
`Expires` minus the effective date (parsed `Date`, falling back to `now` on
absence or parse failure) minus the age, −1 on unparseable `Expires`, then
the configured status-code default, else −1; and the age is
`max(0, now − parse(Date))` plus the `Age` header value when it parses. -/
theorem c5_freshness_lifetime (config : CacheConfig) (resp : Response)
    (parseTime : GoStr → Option Int) (now : Int) :
    getResponseTTL config resp parseTime now = specFreshnessLifetime config resp parseTime now ∧
    getResponseAge resp parseTime now = specResponseAge resp parseTime now := by
  refine ⟨?_, getResponseAge_eq_spec resp parseTime now⟩
  unfold getResponseTTL specFreshnessLifetime
  simp only [specFirst_smaxage, specFirst_maxage, getResponseAge_eq_spec]
  cases ttlSMaxAgeScan (splitCacheControlHeader (headerValues resp.headers ccKey)) with
  | some n => rfl
  | none =>
    cases ttlMaxAgeScan (splitCacheControlHeader (headerValues resp.headers ccKey)) with
    | some n => rfl
    | none =>
      simp only
      cases hd : headerGet resp.headers dateKey == [] with
      | true =>
        simp only [hd, Bool.not_true, Bool.false_eq_true, if_false, if_true]
        cases he : headerGet resp.headers expiresKey == [] with
        | true => simp [he]
        | false =>
          simp only [he, Bool.not_false, if_true, Bool.false_eq_true, if_false]
          cases parseTime (headerGet resp.headers expiresKey) <;> rfl
      | false =>
        simp only [hd, Bool.not_false, if_true, Bool.false_eq_true, if_false]
        cases hp : parseTime (headerGet resp.headers dateKey) with
        | none =>
          cases he : headerGet resp.headers expiresKey == [] with
          | true => simp [he, hp]
          | false =>
            simp only [he, hp, Bool.not_false, if_true, Bool.false_eq_true, if_false]
            cases parseTime (headerGet resp.headers expiresKey) <;> rfl
        | some d =>
          cases he : headerGet resp.headers expiresKey == [] with
          | true => simp [he, hp]
          | false =>
            simp only [he, hp, Bool.not_false, if_true, Bool.false_eq_true, if_false]
            cases parseTime (headerGet resp.headers expiresKey) <;> rfl

/-- Tail of the storability decision: the source's fall-through
`Expires`/extension code equals the claim's conditions 9a/9b/10. -/
theorem storeTail_eq (esEmpty : Bool) (pt : Option Int) (now : Int) (ext ok : Bool) :
    (if (!esEmpty) = true then
      match pt with
      | none => false
      | some expires => if expires - now > 0 then true else (if (!ext) = true then false else ok)
    else (if (!ext) = true then false else ok))
    = (if (!esEmpty && pt.isNone) = true then false
      else if (!esEmpty &&
          (match pt with | some e => decide (e - now > 0) | none => false)) = true then true
      else (ext && ok)) := by
  cases esEmpty with
  | true =>
    cases ext <;> simp
  | false =>
    cases pt with
    | none => simp
    | some e =>
      by_cases hgt : e - now > 0
      · simp [hgt]
      · simp only [Bool.not_false, Bool.true_and, Option.isNone_some, Bool.false_eq_true,
          if_false, if_neg hgt, show decide (e - now > 0) = false by simp [hgt]]
        cases ext <;> simp

/-- C6: the storability decision evaluates its ten conditions as the stated
short-circuit in the stated order; in particular (second conjunct) a
response whose `Cache-Control` contains `max-age=N` is storable even when it
also carries an unparseable `Expires` header, because the directive check
(step 8) precedes the `Expires` check (step 9). -/
theorem c6_storability_order :
    (∀ (config : CacheConfig) (resp : Response) (parseTime : GoStr → Option Int) (now : Int),
      shouldStoreResponse config resp parseTime now = specStorable config resp parseTime now) ∧
    shouldStoreResponse exampleConfig c6Response (fun _ => none) 0 = true := by
  constructor
  · intro config resp parseTime now
    simp only [shouldStoreResponse, specStorable]
    rw [storeTail_eq (headerGet resp.headers expiresKey == [])
      (parseTime (headerGet resp.headers expiresKey)) now
      (config.cacheableFileExtensions.any fun ext =>
        goHasSuffix resp.request.url.path ('.' :: ext))
      (statusDefaultTTL config resp.statusCode).isSome]
  · decide

/-! ### Lemmas for key determinism (claim C9) -/

theorem splitQuerySeps_single (s : GoStr)
    (h : ∀ c ∈ s, (c == '&') = false ∧ (c == ';') = false) :
    splitQuerySeps s = [s] := by
  induction s with
  | nil => rfl
  | cons c rest ih =>
    have hc := h c (List.mem_cons_self c rest)
    have hrest : ∀ x ∈ rest, (x == '&') = false ∧ (x == ';') = false := fun x hx =>
      h x (List.mem_cons_of_mem c hx)
    simp only [splitQuerySeps, hc.1, hc.2, Bool.or_self, Bool.false_eq_true, if_false]
    rw [ih hrest]

theorem splitQuerySeps_append_sep (s t : GoStr)
    (h : ∀ c ∈ s, (c == '&') = false ∧ (c == ';') = false) :
    splitQuerySeps (s ++ '&' :: t) = s :: splitQuerySeps t := by
  induction s with
  | nil => simp [splitQuerySeps]
  | cons c rest ih =>
    have hc := h c (List.mem_cons_self c rest)
    have hrest : ∀ x ∈ rest, (x == '&') = false ∧ (x == ';') = false := fun x hx =>
      h x (List.mem_cons_of_mem c hx)
    simp only [List.cons_append, splitQuerySeps, hc.1, hc.2, Bool.or_self,
      Bool.false_eq_true, if_false]
    simp only [List.append_eq]
    rw [ih hrest]

theorem splitQuerySeps_join (segs : List GoStr) (hne : segs ≠ [])
    (h : ∀ s ∈ segs, ∀ c ∈ s, (c == '&') = false ∧ (c == ';') = false) :
    splitQuerySeps (goJoinChar '&' segs) = segs := by
  induction segs with
  | nil => exact absurd rfl hne
  | cons s segs ih =>
    cases segs with
    | nil =>
      exact splitQuerySeps_single s (h s (List.mem_cons_self s []))
    | cons s2 rest =>
      have hjoin : goJoinChar '&' (s :: s2 :: rest) = s ++ '&' :: goJoinChar '&' (s2 :: rest) :=
        rfl
      rw [hjoin, splitQuerySeps_append_sep s _ (h s (List.mem_cons_self s _))]
      rw [ih (by simp) (fun x hx => h x (List.mem_cons_of_mem s hx))]

theorem parseQuery_fold_char (segs : List GoStr) (m : List (GoStr × List GoStr)) (e : Bool) :
    segs.foldl parseQuerySeg (m, e)
      = (buildValues (segs.filterMap decodeSeg) m, e || segsHaveError segs) := by
  induction segs generalizing m e with
  | nil => simp [buildValues, segsHaveError]
  | cons s segs ih =>
    by_cases hs : s.isEmpty
    · have hd : decodeSeg s = none := by simp [decodeSeg, hs]
      simp only [List.foldl_cons, parseQuerySeg, hs, if_true, List.filterMap_cons, hd]
      rw [ih]
      have herr : segsHaveError (s :: segs) = segsHaveError segs := by
        simp [segsHaveError, hs]
      rw [herr]
    · cases hk : queryUnescape (cutAtEq s).1 with
      | none =>
        have hd : decodeSeg s = none := by simp [decodeSeg, hs, hk]
        simp only [List.foldl_cons, parseQuerySeg, hs, Bool.false_eq_true, if_false, hk,
          List.filterMap_cons, hd]
        rw [ih]
        have herr : segsHaveError (s :: segs) = true := by
          simp only [segsHaveError, List.any_cons, hd, Option.isNone_none, Bool.and_true]
          cases s with
          | nil => simp at hs
          | cons a b => simp
        rw [herr]
        simp
      | some k =>
        cases hv : queryUnescape (cutAtEq s).2 with
        | none =>
          have hd : decodeSeg s = none := by simp [decodeSeg, hs, hk, hv]
          simp only [List.foldl_cons, parseQuerySeg, hs, Bool.false_eq_true, if_false, hk, hv,
            List.filterMap_cons, hd]
          rw [ih]
          have herr : segsHaveError (s :: segs) = true := by
            simp only [segsHaveError, List.any_cons, hd, Option.isNone_none, Bool.and_true]
            cases s with
            | nil => simp at hs
            | cons a b => simp
          rw [herr]
          simp
        | some v =>
          have hd : decodeSeg s = some (k, v) := by simp [decodeSeg, hs, hk, hv]
          simp only [List.foldl_cons, parseQuerySeg, hs, Bool.false_eq_true, if_false, hk, hv,
            List.filterMap_cons, hd]
          rw [ih]
          have herr : segsHaveError (s :: segs) = segsHaveError segs := by
            simp [segsHaveError, hd]
          rw [herr]
          rfl

theorem valuesAppend_notmem (m : List (GoStr × List GoStr)) (k : GoStr) (v : GoStr)
    (h : k ∉ m.map Prod.fst) :
    valuesAppend m k v = m ++ [(k, [v])] := by
  induction m with
  | nil => rfl
  | cons p ps ih =>
    have hk : ¬p.1 = k := by
      intro he
      exact h (by simp [← he])
    cases p with
    | mk k' vs =>
      simp only [valuesAppend]
      rw [if_neg (by simpa using hk)]
      rw [ih (by intro hm; exact h (by simp [hm]))]
      rfl

theorem buildValues_nodup : ∀ (pairs : List (GoStr × GoStr)) (m0 : List (GoStr × List GoStr)),
    (pairs.map Prod.fst).Nodup →
    (∀ k ∈ pairs.map Prod.fst, k ∉ m0.map Prod.fst) →
    buildValues pairs m0 = m0 ++ pairs.map (fun kv => (kv.1, [kv.2])) := by
  intro pairs
  induction pairs with
  | nil => intro m0 _ _; simp [buildValues]
  | cons kv ps ih =>
    intro m0 hnodup hdisj
    have h1 : kv.1 ∉ m0.map Prod.fst := hdisj kv.1 (by simp)
    have hstep : buildValues (kv :: ps) m0 = buildValues ps (m0 ++ [(kv.1, [kv.2])]) := by
      simp only [buildValues, List.foldl_cons]
      rw [valuesAppend_notmem m0 kv.1 kv.2 h1]
    rw [hstep]
    have hnodup' : (ps.map Prod.fst).Nodup := by
      simp only [List.map_cons, List.nodup_cons] at hnodup
      exact hnodup.2
    have hne : kv.1 ∉ ps.map Prod.fst := by
      simp only [List.map_cons, List.nodup_cons] at hnodup
      exact hnodup.1
    have hdisj' : ∀ k ∈ ps.map Prod.fst, k ∉ (m0 ++ [(kv.1, [kv.2])]).map Prod.fst := by
      intro k hk
      simp only [List.map_append, List.mem_append]
      rintro (hm | hm)
      · exact hdisj k (by simp [hk]) hm
      · simp at hm
        rw [hm] at hk
        exact hne hk
    rw [ih (m0 ++ [(kv.1, [kv.2])]) hnodup' hdisj']
    simp

theorem find?_key_perm (m m' : List (GoStr × List GoStr)) (hperm : m.Perm m')
    (hnodup : (m.map Prod.fst).Nodup) (k : GoStr) :
    m.find? (fun p => p.1 == k) = m'.find? (fun p => p.1 == k) := by
  cases hm : m.find? (fun p => p.1 == k) with
  | none =>
    rw [List.find?_eq_none] at hm
    symm
    rw [List.find?_eq_none]
    intro x hx
    exact hm x (hperm.mem_iff.mpr hx)
  | some p =>
    have hpmem : p ∈ m := List.mem_of_find?_eq_some hm
    have hppred := List.find?_some hm
    have hsome : (m'.find? (fun p => p.1 == k)).isSome := by
      rw [List.find?_isSome]
      exact ⟨p, hperm.mem_iff.mp hpmem, hppred⟩
    cases hm' : m'.find? (fun p => p.1 == k) with
    | none => rw [hm'] at hsome; simp at hsome
    | some q =>
      have hqmem : q ∈ m := hperm.mem_iff.mpr (List.mem_of_find?_eq_some hm')
      have hqpred := List.find?_some hm'
      have hfst : p.1 = q.1 := by
        have h1 : p.1 = k := by simpa using hppred
        have h2 : q.1 = k := by simpa using hqpred
        rw [h1, h2]
      have : p = q := List.inj_on_of_nodup_map hnodup hpmem hqmem hfst
      rw [this]

theorem encodeValues_perm (m m' : List (GoStr × List GoStr)) (hperm : m.Perm m')
    (hnodup : (m.map Prod.fst).Nodup) :
    encodeValues m = encodeValues m' := by
  simp only [encodeValues]
  have hkeys : sortStrings (m.map Prod.fst) = sortStrings (m'.map Prod.fst) := by
    have hp : (sortStrings (m.map Prod.fst)).Perm (sortStrings (m'.map Prod.fst)) := by
      refine ((List.perm_insertionSort goStrLeRel _).trans ?_).trans
        (List.perm_insertionSort goStrLeRel _).symm
      exact hperm.map Prod.fst
    exact List.eq_of_perm_of_sorted hp (List.sorted_insertionSort goStrLeRel _)
      (List.sorted_insertionSort goStrLeRel _)
  rw [hkeys]
  have hvals : ∀ k, headerValues m k = headerValues m' k := by
    intro k
    unfold headerValues
    rw [find?_key_perm m m' hperm hnodup k]
  have : (fun k => (headerValues m k).map fun v => queryEscape k ++ '=' :: queryEscape v)
      = (fun k => (headerValues m' k).map fun v => queryEscape k ++ '=' :: queryEscape v) := by
    funext k
    rw [hvals k]
  rw [this]

theorem effectiveURI_query_perm (fc : ForwardConfig) (req : Request)
    (segs1 segs2 : List GoStr)
    (hhost : req.url.host = [])
    (hfree : ∀ s ∈ segs1, ∀ c ∈ s, (c == '&') = false ∧ (c == ';') = false)
    (hperm : segs1.Perm segs2)
    (hnodup : ((segs1.filterMap decodeSeg).map Prod.fst).Nodup) :
    getEffectiveURI { req with url := { req.url with rawQuery := goJoinChar '&' segs1 } } fc
      = getEffectiveURI { req with url := { req.url with rawQuery := goJoinChar '&' segs2 } } fc := by
  by_cases hemp : segs1 = []
  · have hs2 : segs2 = [] := by
      rw [hemp] at hperm
      exact hperm.symm.eq_nil
    rw [hemp, hs2]
  · have hemp2 : segs2 ≠ [] := by
      intro h
      rw [h] at hperm
      exact hemp hperm.eq_nil
    have hfree2 : ∀ s ∈ segs2, ∀ c ∈ s, (c == '&') = false ∧ (c == ';') = false :=
      fun s hs => hfree s (hperm.mem_iff.mpr hs)
    have hparse1 : parseQueryGo (goJoinChar '&' segs1)
        = (buildValues (segs1.filterMap decodeSeg) [], segsHaveError segs1) := by
      unfold parseQueryGo
      rw [splitQuerySeps_join segs1 hemp hfree, parseQuery_fold_char]
      simp
    have hparse2 : parseQueryGo (goJoinChar '&' segs2)
        = (buildValues (segs2.filterMap decodeSeg) [], segsHaveError segs2) := by
      unfold parseQueryGo
      rw [splitQuerySeps_join segs2 hemp2 hfree2, parseQuery_fold_char]
      simp
    have herr : segsHaveError segs1 = segsHaveError segs2 := by
      unfold segsHaveError
      cases h2 : segs2.any fun s => !s.isEmpty && (decodeSeg s).isNone with
      | true =>
        rw [List.any_eq_true] at h2 ⊢
        obtain ⟨s, hs, hp⟩ := h2
        exact ⟨s, hperm.mem_iff.mpr hs, hp⟩
      | false =>
        rw [List.any_eq_false] at h2 ⊢
        intro s hs
        exact h2 s (hperm.mem_iff.mp hs)
    have hpairsperm : (segs1.filterMap decodeSeg).Perm (segs2.filterMap decodeSeg) :=
      hperm.filterMap _
    have hnodup2 : ((segs2.filterMap decodeSeg).map Prod.fst).Nodup :=
      ((hpairsperm.map Prod.fst).nodup_iff).mp hnodup
    have henc : encodeValues (buildValues (segs1.filterMap decodeSeg) [])
        = encodeValues (buildValues (segs2.filterMap decodeSeg) []) := by
      rw [buildValues_nodup (segs1.filterMap decodeSeg) [] hnodup (by simp),
        buildValues_nodup (segs2.filterMap decodeSeg) [] hnodup2 (by simp)]
      simp only [List.nil_append]
      apply encodeValues_perm
      · exact hpairsperm.map _
      · rw [List.map_map]
        have hcomp : (Prod.fst ∘ fun kv : GoStr × GoStr => (kv.1, [kv.2])) = Prod.fst := by
          funext kv; rfl
        rw [hcomp]
        exact hnodup
    unfold getEffectiveURI
    dsimp only
    rw [hhost, hparse1, hparse2, herr, henc]
    simp only [show (([] : GoStr) == []) = true from rfl, Bool.not_true, Bool.false_and,
      Bool.false_eq_true, if_false]

/-- C9, counterexample: the primary cache key incorporates the method name
verbatim, so two requests that differ only in the casing of the method name
(`GET /a` versus `get /a`) produce different primary keys, contradicting the
claim's determinism under method-name casing. -/
theorem c9_method_case_counterexample :
    c9RequestLower = { exampleRequest with method := goToLower exampleRequest.method } ∧
    getPrimaryCacheKey exampleConfig exampleForwardConfig exampleRequest
      ≠ getPrimaryCacheKey exampleConfig exampleForwardConfig c9RequestLower := by
  decide

/-- C9 as amended: (1) the primary key never reads the request headers, so
duplicate `Date`/`Host` header lines cannot alter it; (2) an absolute-form
request URL is used verbatim (`URL.String`), so query order is preserved
there; (3) for origin-form requests, reordering query segments with
separator-free text and pairwise-distinct decoded keys leaves the primary
key unchanged (the query is re-encoded sorted by key, with the value order
of one key preserved — hence the distinct-keys proviso).  The method name
enters the key verbatim. -/
theorem c9_primary_key_amended :
    (∀ (cfg : CacheConfig) (fc : ForwardConfig) (req : Request) (h1 h2 : Headers),
      getPrimaryCacheKey cfg fc { req with headers := h1 }
        = getPrimaryCacheKey cfg fc { req with headers := h2 }) ∧
    (∀ (cfg : CacheConfig) (fc : ForwardConfig) (req : Request),
      (!(req.url.host == []) && !(req.url.scheme == [])) = true →
      getPrimaryCacheKey cfg fc req = req.method ++ urlString req.url) ∧
    (∀ (cfg : CacheConfig) (fc : ForwardConfig) (req : Request) (segs1 segs2 : List GoStr),
      req.url.host = [] →
      (∀ s ∈ segs1, ∀ c ∈ s, (c == '&') = false ∧ (c == ';') = false) →
      segs1.Perm segs2 →
      ((segs1.filterMap decodeSeg).map Prod.fst).Nodup →
      getPrimaryCacheKey cfg fc
          { req with url := { req.url with rawQuery := goJoinChar '&' segs1 } }
        = getPrimaryCacheKey cfg fc
          { req with url := { req.url with rawQuery := goJoinChar '&' segs2 } }) := by
  refine ⟨?_, ?_, ?_⟩
  · intro cfg fc req h1 h2
    rfl
  · intro cfg fc req habs
    unfold getPrimaryCacheKey getEffectiveURI
    rw [if_pos habs]
  · intro cfg fc req segs1 segs2 hhost hfree hperm hnodup
    unfold getPrimaryCacheKey
    rw [effectiveURI_query_perm fc req segs1 segs2 hhost hfree hperm hnodup]

/-- Witness for C9: the amended theorem applied to `GET /a?b=2&a=1` versus
`GET /a?a=1&b=2`. -/
theorem c9_primary_key_amended_witness :
    getPrimaryCacheKey exampleConfig exampleForwardConfig
        { exampleRequest with url :=
          { exampleRequest.url with rawQuery := goJoinChar '&' [gs "b=2", gs "a=1"] } }
      = getPrimaryCacheKey exampleConfig exampleForwardConfig
        { exampleRequest with url :=
          { exampleRequest.url with rawQuery := goJoinChar '&' [gs "a=1", gs "b=2"] } } :=
  c9_primary_key_amended.2.2 exampleConfig exampleForwardConfig exampleRequest
    [gs "b=2", gs "a=1"] [gs "a=1", gs "b=2"] rfl (by decide) (by decide) (by decide)

/-! ### Decimal rendering round-trip and character classes (claim C3) -/

/-- Unfolding equation of the well-founded `natToDec`. -/
theorem natToDec_eq (n : Nat) :
    natToDec n = if n < 10 then [digitChar n] else natToDec (n / 10) ++ [digitChar (n % 10)] := by
  rw [natToDec]
  simp only [dite_eq_ite]

/-- The decimal digit characters are plain: not a comma, quote or space,
fixed by lowering, and not a sign character. -/
theorem digitChar_facts (n : Nat) :
    ((digitChar n == ',') = false) ∧ ((digitChar n == '"') = false) ∧
      goIsSpace (digitChar n) = false ∧ asciiLower (digitChar n) = digitChar n ∧
      digitChar n ≠ '+' ∧ digitChar n ≠ '-' := by
  rcases n with _ | _ | _ | _ | _ | _ | _ | _ | _ | m
  · decide
  · decide
  · decide
  · decide
  · decide
  · decide
  · decide
  · decide
  · decide
  · have h9 : digitChar (m + 1 + 1 + 1 + 1 + 1 + 1 + 1 + 1 + 1) = '9' := rfl
    rw [h9]
    decide

/-- Every character of a rendered decimal is a digit character, hence plain. -/
theorem natToDec_facts (n : Nat) (c : Char) (hc : c ∈ natToDec n) :
    ((c == ',') = false) ∧ ((c == '"') = false) ∧ goIsSpace c = false ∧
      asciiLower c = c ∧ c ≠ '+' ∧ c ≠ '-' := by
  induction n using Nat.strong_induction_on with
  | _ n ih =>
    rw [natToDec_eq] at hc
    by_cases h : n < 10
    · rw [if_pos h] at hc
      have := List.mem_singleton.mp hc
      subst this
      exact digitChar_facts n
    · rw [if_neg h] at hc
      rcases List.mem_append.mp hc with h1 | h1
      · exact ih (n / 10) (Nat.div_lt_self (by omega) (by omega)) h1
      · have := List.mem_singleton.mp h1
        subst this
        exact digitChar_facts (n % 10)

/-- A rendered decimal is never empty. -/
theorem natToDec_ne_nil (n : Nat) : natToDec n ≠ [] := by
  rw [natToDec_eq]
  split <;> simp

/-- `decDigit?` inverts `digitChar` on digit values. -/
theorem decDigit?_digitChar (n : Nat) (h : n < 10) : decDigit? (digitChar n) = some n := by
  interval_cases n <;> decide

/-- `parseDecAux` distributes over appending. -/
theorem parseDecAux_append (a : Nat) (s t : GoStr) :
    parseDecAux a (s ++ t) =
      match parseDecAux a s with
      | some m => parseDecAux m t
      | none => none := by
  induction s generalizing a with
  | nil => rfl
  | cons c cs ih =>
    simp only [List.cons_append, parseDecAux]
    cases decDigit? c with
    | some d => exact ih _
    | none => rfl

/-- `parseDecAux` parses a rendered decimal back. -/
theorem parseDecAux_natToDec (n : Nat) : parseDecAux 0 (natToDec n) = some n := by
  induction n using Nat.strong_induction_on with
  | _ n ih =>
    rw [natToDec_eq]
    by_cases h : n < 10
    · rw [if_pos h]
      show parseDecAux 0 [digitChar n] = some n
      simp only [parseDecAux, decDigit?_digitChar n h]
      rw [Nat.zero_mul, Nat.zero_add]
    · rw [if_neg h, parseDecAux_append]
      rw [ih (n / 10) (Nat.div_lt_self (by omega) (by omega))]
      show parseDecAux (n / 10) [digitChar (n % 10)] = some n
      simp only [parseDecAux, decDigit?_digitChar (n % 10) (Nat.mod_lt n (by omega))]
      congr 1
      omega

/-- `parseDecDigits` parses a rendered decimal back. -/
theorem parseDecDigits_natToDec (n : Nat) : parseDecDigits (natToDec n) = some n := by
  have hne := natToDec_ne_nil n
  have haux := parseDecAux_natToDec n
  cases h : natToDec n with
  | nil => exact absurd h hne
  | cons c cs =>
    rw [h] at haux
    show parseDecAux 0 (c :: cs) = some n
    exact haux

/-- `strconv.ParseInt` parses a rendered decimal back whenever the value fits
in `int64`. -/
theorem goParseInt_natToDec (n : Nat) (h : (n : Int) ≤ maxInt64) :
    goParseInt (natToDec n) = some (n : Int) := by
  have hne := natToDec_ne_nil n
  have haux := parseDecDigits_natToDec n
  cases hc : natToDec n with
  | nil => exact absurd hc hne
  | cons c cs =>
    rw [hc] at haux
    have hcls := natToDec_facts n c (hc ▸ List.mem_cons_self c cs)
    show (if c = '+' then
        (parseDecDigits cs).bind fun m => if (m : Int) ≤ maxInt64 then some (m : Int) else none
      else if c = '-' then
        (parseDecDigits cs).bind fun m => if -(m : Int) ≥ minInt64 then some (-(m : Int)) else none
      else
        (parseDecDigits (c :: cs)).bind fun m =>
          if (m : Int) ≤ maxInt64 then some (m : Int) else none) = some (n : Int)
    rw [if_neg hcls.2.2.2.2.1, if_neg hcls.2.2.2.2.2, haux]
    show (if (n : Int) ≤ maxInt64 then some ((n : Nat) : Int) else none) = some (n : Int)
    rw [if_pos h]

/-! ### Trim / lower fixed points and scanner structure (claim C3) -/

/-- `dropWhile` is the identity when no character satisfies the predicate. -/
theorem dropWhile_of_none (p : Char → Bool) (s : GoStr) (h : ∀ c ∈ s, p c = false) :
    s.dropWhile p = s := by
  cases s with
  | nil => rfl
  | cons c cs =>
    rw [List.dropWhile_cons, h c (List.mem_cons_self c cs)]
    simp

/-- `strings.TrimSpace` is the identity on space-free strings. -/
theorem trim_of_nonspace (s : GoStr) (h : ∀ c ∈ s, goIsSpace c = false) :
    goTrimSpace s = s := by
  unfold goTrimSpace
  rw [dropWhile_of_none goIsSpace s h,
    dropWhile_of_none goIsSpace s.reverse (fun c hc => h c (List.mem_reverse.mp hc)),
    List.reverse_reverse]

/-- `strings.ToLower` is the identity when every character is fixed by
lowering. -/
theorem goToLower_fixed (s : GoStr) (h : ∀ c ∈ s, asciiLower c = c) : goToLower s = s := by
  unfold goToLower
  induction s with
  | nil => rfl
  | cons c cs ih =>
    rw [List.map_cons, h c (List.mem_cons_self c cs),
      ih (fun c hc => h c (List.mem_cons_of_mem _ hc))]

/-- The scanner is a homomorphism in its accumulator. -/
theorem sccScan_acc (s : GoStr) : ∀ (inQ : Bool) (cur : GoStr) (acc : List GoStr),
    sccScan inQ cur acc s = acc ++ sccScan inQ cur [] s := by
  induction s with
  | nil =>
    intro inQ cur acc
    simp only [sccScan]
    by_cases h : (goTrimSpace cur).length ≠ 0
    · rw [if_pos h, if_pos h]
      simp
    · rw [if_neg h, if_neg h]
      simp
  | cons c rest ih =>
    intro inQ cur acc
    simp only [sccScan]
    by_cases h : (c == ',' && !(if c == '"' then !inQ else inQ)) = true
    · rw [if_pos h, if_pos h]
      by_cases h2 : (goTrimSpace cur).length ≠ 0
      · rw [if_pos h2, if_pos h2, ih, ih _ _ ([] ++ [goTrimSpace cur])]
        simp
      · rw [if_neg h2, if_neg h2, ih]
    · rw [if_neg h, if_neg h]
      exact ih _ _ _

/-- Outside quotes, a comma- and quote-free run of the input moves to the
current directive unchanged. -/
theorem sccScan_plain (s : GoStr)
    (h : ∀ c ∈ s, ((c == ',') = false) ∧ ((c == '"') = false)) :
    ∀ (cur : GoStr) (acc : List GoStr) (rest : GoStr),
    sccScan false cur acc (s ++ rest) = sccScan false (cur ++ s) acc rest := by
  induction s with
  | nil =>
    intro cur acc rest
    simp
  | cons c cs ih =>
    intro cur acc rest
    obtain ⟨h1, h2⟩ := h c (List.mem_cons_self c cs)
    simp only [List.cons_append, sccScan, h1, h2, Bool.false_eq_true, if_false, Bool.false_and,
      List.append_eq]
    rw [ih (fun c hc => h c (List.mem_cons_of_mem _ hc)) (cur ++ [c]) acc rest]
    simp

/-- Inside quotes, a quote-free run of the input moves to the current
directive unchanged (commas included). -/
theorem sccScan_quoted_run (s : GoStr) (h : ∀ c ∈ s, (c == '"') = false) :
    ∀ (cur : GoStr) (acc : List GoStr) (rest : GoStr),
    sccScan true cur acc (s ++ rest) = sccScan true (cur ++ s) acc rest := by
  induction s with
  | nil =>
    intro cur acc rest
    simp
  | cons c cs ih =>
    intro cur acc rest
    have h2 := h c (List.mem_cons_self c cs)
    simp only [List.cons_append, sccScan, h2, Bool.false_eq_true, if_false, Bool.not_true,
      Bool.and_false, List.append_eq]
    rw [ih (fun c hc => h c (List.mem_cons_of_mem _ hc)) (cur ++ [c]) acc rest]
    simp

/-- A non-empty, space-, comma- and quote-free value scans to itself as the
single directive. -/
theorem sccScan_plain_whole (s : GoStr) (hs : s ≠ [])
    (hsp : ∀ c ∈ s, goIsSpace c = false)
    (h : ∀ c ∈ s, ((c == ',') = false) ∧ ((c == '"') = false)) (acc : List GoStr) :
    sccScan false [] acc s = acc ++ [s] := by
  calc sccScan false [] acc s = sccScan false [] acc (s ++ []) := by rw [List.append_nil]
    _ = sccScan false ([] ++ s) acc [] := sccScan_plain s h [] acc []
    _ = acc ++ [s] := by
        simp only [List.nil_append, sccScan, trim_of_nonspace s hsp]
        rw [if_pos (fun hlen => hs (List.length_eq_zero.mp hlen))]

/-! ### Field tokens and the quoted field-list form (claim C3) -/

/-- Characters of a field token (lower-case letters, digits, dashes) are not
quotes or spaces and are fixed by lowering. -/
theorem token_char_facts (c : Char)
    (h : ('a' ≤ c ∧ c ≤ 'z') ∨ ('0' ≤ c ∧ c ≤ '9') ∨ c = '-') :
    ((c == '"') = false) ∧ goIsSpace c = false ∧ asciiLower c = c := by
  rcases h with ⟨h1, h2⟩ | ⟨h1, h2⟩ | h1
  · have hne : ∀ d : Char, ¬('a' ≤ d) → (c == d) = false := fun d hd =>
      beq_eq_false_iff_ne.mpr (fun he => hd (he ▸ h1))
    refine ⟨hne '"' (by decide), ?_, ?_⟩
    · simp only [goIsSpace, hne ' ' (by decide), hne '\t' (by decide), hne '\n' (by decide),
        hne '\x0b' (by decide), hne '\x0c' (by decide), hne '\r' (by decide), Bool.or_self]
    · unfold asciiLower
      rw [if_neg]
      rintro ⟨-, u2⟩
      exact absurd (le_trans h1 u2) (by decide)
  · have hne : ∀ d : Char, ¬('0' ≤ d) → (c == d) = false := fun d hd =>
      beq_eq_false_iff_ne.mpr (fun he => hd (he ▸ h1))
    refine ⟨hne '"' (by decide), ?_, ?_⟩
    · simp only [goIsSpace, hne ' ' (by decide), hne '\t' (by decide), hne '\n' (by decide),
        hne '\x0b' (by decide), hne '\x0c' (by decide), hne '\r' (by decide), Bool.or_self]
    · unfold asciiLower
      rw [if_neg]
      rintro ⟨u1, -⟩
      exact absurd (le_trans u1 h2) (by decide)
  · subst h1
    exact ⟨by decide, by decide, by decide⟩

/-- Membership in a one-character join: the separator or a part character. -/
theorem mem_goJoinChar (sep : Char) (parts : List GoStr) (c : Char)
    (hc : c ∈ goJoinChar sep parts) : c = sep ∨ ∃ p ∈ parts, c ∈ p := by
  induction parts with
  | nil => simp [goJoinChar] at hc
  | cons p ps ih =>
    cases ps with
    | nil =>
      simp only [goJoinChar] at hc
      right
      exact ⟨p, by simp, hc⟩
    | cons q qs =>
      simp only [goJoinChar] at hc
      rcases List.mem_append.mp hc with h1 | h1
      · right
        exact ⟨p, by simp, h1⟩
      · rcases List.mem_cons.mp h1 with h2 | h2
        · left
          exact h2
        · rcases ih h2 with h3 | ⟨p', hp', hcp'⟩
          · left
            exact h3
          · right
            exact ⟨p', List.mem_cons_of_mem _ hp', hcp'⟩

/-- Character facts for the joined field list of a `no-cache="..."`
directive: no quotes, no spaces, fixed by lowering. -/
theorem fieldJoin_facts (fields : List FieldToken) (c : Char)
    (hc : c ∈ goJoinChar ',' (fields.map Subtype.val)) :
    ((c == '"') = false) ∧ goIsSpace c = false ∧ asciiLower c = c := by
  rcases mem_goJoinChar ',' (fields.map Subtype.val) c hc with h | ⟨p, hp, hcp⟩
  · subst h
    exact ⟨by decide, by decide, by decide⟩
  · rcases List.mem_map.mp hp with ⟨t, -, ht⟩
    subst ht
    have hok := t.property
    unfold fieldTokenOK at hok
    have hall := (Bool.and_eq_true_iff.mp hok).2
    have hcm := List.all_eq_true.mp hall c hcp
    have hcm' : ('a' ≤ c ∧ c ≤ 'z' ∨ '0' ≤ c ∧ c ≤ '9') ∨ c = '-' := by simpa using hcm
    exact token_char_facts c (by tauto)

/-- The rendered field-list `no-cache="f1,f2"` value scans to itself as the
single directive. -/
theorem sccScan_fields (fields : List FieldToken) (acc : List GoStr) :
    sccScan false [] acc (gs "no-cache=" ++ '"' :: (goJoinChar ',' (fields.map Subtype.val) ++ ['"'])) =
      acc ++ [gs "no-cache=" ++ '"' :: (goJoinChar ',' (fields.map Subtype.val) ++ ['"'])] := by
  have hq : ∀ c ∈ goJoinChar ',' (fields.map Subtype.val), (c == '"') = false :=
    fun c hc => (fieldJoin_facts fields c hc).1
  have hpre : ∀ c ∈ gs "no-cache=", ((c == ',') = false) ∧ ((c == '"') = false) := by decide
  calc sccScan false [] acc (gs "no-cache=" ++ '"' :: (goJoinChar ',' (fields.map Subtype.val) ++ ['"']))
      = sccScan false (gs "no-cache=") acc ('"' :: (goJoinChar ',' (fields.map Subtype.val) ++ ['"'])) := by
        rw [sccScan_plain (gs "no-cache=") hpre [] acc]
        simp
    _ = sccScan true (gs "no-cache=" ++ ['"']) acc (goJoinChar ',' (fields.map Subtype.val) ++ ['"']) := rfl
    _ = sccScan true ((gs "no-cache=" ++ ['"']) ++ goJoinChar ',' (fields.map Subtype.val)) acc ['"'] :=
        sccScan_quoted_run (goJoinChar ',' (fields.map Subtype.val)) hq _ acc ['"']
    _ = acc ++ [gs "no-cache=" ++ '"' :: (goJoinChar ',' (fields.map Subtype.val) ++ ['"'])] := by
        show sccScan false (((gs "no-cache=" ++ ['"']) ++ goJoinChar ',' (fields.map Subtype.val)) ++ ['"']) acc [] = _
        have hfull : ((gs "no-cache=" ++ ['"']) ++ goJoinChar ',' (fields.map Subtype.val)) ++ ['"'] =
            gs "no-cache=" ++ '"' :: (goJoinChar ',' (fields.map Subtype.val) ++ ['"']) := by
          simp
        rw [hfull]
        have hsp : ∀ c ∈ gs "no-cache=" ++ '"' :: (goJoinChar ',' (fields.map Subtype.val) ++ ['"']),
            goIsSpace c = false := by
          intro c hc
          rcases List.mem_append.mp hc with h1 | h1
          · exact (by decide : ∀ x ∈ gs "no-cache=", goIsSpace x = false) c h1
          · rcases List.mem_cons.mp h1 with h2 | h2
            · subst h2
              decide
            · rcases List.mem_append.mp h2 with h3 | h3
              · exact (fieldJoin_facts fields c h3).2.1
              · have := List.mem_singleton.mp h3
                subst this
                decide
        simp only [sccScan, trim_of_nonspace _ hsp]
        rw [if_pos]
        simp

/-! ### Rendered directives survive the Cache-Control splitter (claim C3) -/

/-- Pointwise facts split over an append. -/
theorem mem_append_split {P : Char → Prop} (a b : GoStr) (ha : ∀ c ∈ a, P c)
    (hb : ∀ c ∈ b, P c) : ∀ c ∈ a ++ b, P c := by
  intro c hc
  rcases List.mem_append.mp hc with h | h
  · exact ha c h
  · exact hb c h

theorem natToDec_nonspace (n : Nat) : ∀ c ∈ natToDec n, goIsSpace c = false :=
  fun c h => (natToDec_facts n c h).2.2.1

theorem natToDec_commaQuote (n : Nat) :
    ∀ c ∈ natToDec n, ((c == ',') = false) ∧ ((c == '"') = false) :=
  fun c h => ⟨(natToDec_facts n c h).1, (natToDec_facts n c h).2.1⟩

theorem natToDec_lowerFixed (n : Nat) : ∀ c ∈ natToDec n, asciiLower c = c :=
  fun c h => (natToDec_facts n c h).2.2.2.1

/-- Rendered request directives are already lower-case. -/
theorem renderReq_lower (d : ReqDirective) :
    goToLower (renderReqDirective d) = renderReqDirective d := by
  cases d with
  | dMaxAge n =>
    exact goToLower_fixed _ (mem_append_split _ _ (by decide) (natToDec_lowerFixed n.val))
  | dMaxStale v =>
    cases v with
    | none => rfl
    | some n =>
      exact goToLower_fixed _ (mem_append_split _ _ (by decide) (natToDec_lowerFixed n.val))
  | dMinFresh n =>
    exact goToLower_fixed _ (mem_append_split _ _ (by decide) (natToDec_lowerFixed n.val))
  | dNoCache => rfl

/-- Rendered request directives contain no white space. -/
theorem renderReq_nonspace (d : ReqDirective) :
    ∀ c ∈ renderReqDirective d, goIsSpace c = false := by
  cases d with
  | dMaxAge n => exact mem_append_split _ _ (by decide) (natToDec_nonspace n.val)
  | dMaxStale v =>
    cases v with
    | none => decide
    | some n => exact mem_append_split _ _ (by decide) (natToDec_nonspace n.val)
  | dMinFresh n => exact mem_append_split _ _ (by decide) (natToDec_nonspace n.val)
  | dNoCache => decide

/-- Rendered request directives contain no commas or quotes. -/
theorem renderReq_commaQuote (d : ReqDirective) :
    ∀ c ∈ renderReqDirective d, ((c == ',') = false) ∧ ((c == '"') = false) := by
  cases d with
  | dMaxAge n => exact mem_append_split _ _ (by decide) (natToDec_commaQuote n.val)
  | dMaxStale v =>
    cases v with
    | none => decide
    | some n => exact mem_append_split _ _ (by decide) (natToDec_commaQuote n.val)
  | dMinFresh n => exact mem_append_split _ _ (by decide) (natToDec_commaQuote n.val)
  | dNoCache => decide

/-- Rendered request directives are trim-fixed. -/
theorem renderReq_trim (d : ReqDirective) :
    goTrimSpace (renderReqDirective d) = renderReqDirective d :=
  trim_of_nonspace _ (renderReq_nonspace d)

/-- Rendered request directives are non-empty. -/
theorem renderReq_ne_nil (d : ReqDirective) :
    (renderReqDirective d == ([] : GoStr)) = false := by
  cases d with
  | dMaxAge n => rfl
  | dMaxStale v => cases v with
    | none => rfl
    | some n => rfl
  | dMinFresh n => rfl
  | dNoCache => rfl

/-- A rendered request directive scans to itself as the single directive. -/
theorem scc_renderReq (d : ReqDirective) (acc : List GoStr) :
    sccScan false [] acc (goToLower (renderReqDirective d)) = acc ++ [renderReqDirective d] := by
  rw [renderReq_lower]
  cases d with
  | dMaxAge n =>
    exact sccScan_plain_whole _
      (fun h => absurd (List.append_eq_nil.mp h).1 (by decide))
      (renderReq_nonspace (.dMaxAge n)) (renderReq_commaQuote (.dMaxAge n)) acc
  | dMaxStale v =>
    cases v with
    | none =>
      rw [sccScan_acc]
      rfl
    | some n =>
      exact sccScan_plain_whole _
        (fun h => absurd (List.append_eq_nil.mp h).1 (by decide))
        (renderReq_nonspace (.dMaxStale (some n))) (renderReq_commaQuote (.dMaxStale (some n))) acc
  | dMinFresh n =>
    exact sccScan_plain_whole _
      (fun h => absurd (List.append_eq_nil.mp h).1 (by decide))
      (renderReq_nonspace (.dMinFresh n)) (renderReq_commaQuote (.dMinFresh n)) acc
  | dNoCache =>
    rw [sccScan_acc]
    rfl

/-- Rendered response directives are already lower-case. -/
theorem renderResp_lower (d : RespDirective) :
    goToLower (renderRespDirective d) = renderRespDirective d := by
  cases d with
  | dNoCacheFields fields =>
    apply goToLower_fixed
    intro c hc
    rcases List.mem_append.mp hc with h1 | h1
    · exact (by decide : ∀ x ∈ gs "no-cache=", asciiLower x = x) c h1
    · rcases List.mem_cons.mp h1 with h2 | h2
      · subst h2
        decide
      · rcases List.mem_append.mp h2 with h3 | h3
        · exact (fieldJoin_facts fields c h3).2.2
        · have := List.mem_singleton.mp h3
          subst this
          decide
  | dSMaxAge n =>
    exact goToLower_fixed _ (mem_append_split _ _ (by decide) (natToDec_lowerFixed n.val))
  | dRespMaxAge n =>
    exact goToLower_fixed _ (mem_append_split _ _ (by decide) (natToDec_lowerFixed n.val))
  | dNoCachePlain => rfl
  | dMustRevalidate => rfl
  | dProxyRevalidate => rfl
  | dPublic => rfl
  | dPrivate => rfl
  | dNoStore => rfl

/-- Rendered response directives contain no white space. -/
theorem renderResp_nonspace (d : RespDirective) :
    ∀ c ∈ renderRespDirective d, goIsSpace c = false := by
  cases d with
  | dNoCacheFields fields =>
    intro c hc
    rcases List.mem_append.mp hc with h1 | h1
    · exact (by decide : ∀ x ∈ gs "no-cache=", goIsSpace x = false) c h1
    · rcases List.mem_cons.mp h1 with h2 | h2
      · subst h2
        decide
      · rcases List.mem_append.mp h2 with h3 | h3
        · exact (fieldJoin_facts fields c h3).2.1
        · have := List.mem_singleton.mp h3
          subst this
          decide
  | dSMaxAge n => exact mem_append_split _ _ (by decide) (natToDec_nonspace n.val)
  | dRespMaxAge n => exact mem_append_split _ _ (by decide) (natToDec_nonspace n.val)
  | dNoCachePlain => decide
  | dMustRevalidate => decide
  | dProxyRevalidate => decide
  | dPublic => decide
  | dPrivate => decide
  | dNoStore => decide

/-- Rendered response directives are trim-fixed. -/
theorem renderResp_trim (d : RespDirective) :
    goTrimSpace (renderRespDirective d) = renderRespDirective d :=
  trim_of_nonspace _ (renderResp_nonspace d)

/-- A rendered response directive scans to itself as the single directive. -/
theorem scc_renderResp (d : RespDirective) (acc : List GoStr) :
    sccScan false [] acc (goToLower (renderRespDirective d)) = acc ++ [renderRespDirective d] := by
  rw [renderResp_lower]
  cases d with
  | dNoCacheFields fields => exact sccScan_fields fields acc
  | dSMaxAge n =>
    exact sccScan_plain_whole _
      (fun h => absurd (List.append_eq_nil.mp h).1 (by decide))
      (renderResp_nonspace (.dSMaxAge n))
      (mem_append_split _ _ (by decide) (natToDec_commaQuote n.val)) acc
  | dRespMaxAge n =>
    exact sccScan_plain_whole _
      (fun h => absurd (List.append_eq_nil.mp h).1 (by decide))
      (renderResp_nonspace (.dRespMaxAge n))
      (mem_append_split _ _ (by decide) (natToDec_commaQuote n.val)) acc
  | dNoCachePlain =>
    rw [sccScan_acc]
    rfl
  | dMustRevalidate =>
    rw [sccScan_acc]
    rfl
  | dProxyRevalidate =>
    rw [sccScan_acc]
    rfl
  | dPublic =>
    rw [sccScan_acc]
    rfl
  | dPrivate =>
    rw [sccScan_acc]
    rfl
  | dNoStore =>
    rw [sccScan_acc]
    rfl

/-- The splitter fold is a homomorphism in its accumulator. -/
theorem splitCCH_acc (vs : List GoStr) : ∀ (acc : List GoStr),
    vs.foldl (fun acc v => sccScan false [] acc (goToLower v)) acc =
      acc ++ vs.foldl (fun acc v => sccScan false [] acc (goToLower v)) [] := by
  induction vs with
  | nil =>
    intro acc
    simp
  | cons v vs ih =>
    intro acc
    simp only [List.foldl_cons]
    rw [sccScan_acc, ih, ih (sccScan false [] [] (goToLower v))]
    simp

/-- Splitting a list of rendered request directives returns them unchanged. -/
theorem splitCCH_renderReq (dirs : List ReqDirective) :
    splitCacheControlHeader (dirs.map renderReqDirective) = dirs.map renderReqDirective := by
  induction dirs with
  | nil => rfl
  | cons d ds ih =>
    rw [List.map_cons]
    show List.foldl (fun acc v => sccScan false [] acc (goToLower v))
      (sccScan false [] [] (goToLower (renderReqDirective d))) (List.map renderReqDirective ds) = _
    rw [scc_renderReq d [], splitCCH_acc]
    rw [show List.foldl (fun acc v => sccScan false [] acc (goToLower v)) []
        (List.map renderReqDirective ds) =
        splitCacheControlHeader (List.map renderReqDirective ds) from rfl, ih]
    simp

/-- Splitting a list of rendered response directives returns them
unchanged. -/
theorem splitCCH_renderResp (dirs : List RespDirective) :
    splitCacheControlHeader (dirs.map renderRespDirective) = dirs.map renderRespDirective := by
  induction dirs with
  | nil => rfl
  | cons d ds ih =>
    rw [List.map_cons]
    show List.foldl (fun acc v => sccScan false [] acc (goToLower v))
      (sccScan false [] [] (goToLower (renderRespDirective d))) (List.map renderRespDirective ds) = _
    rw [scc_renderResp d [], splitCCH_acc]
    rw [show List.foldl (fun acc v => sccScan false [] acc (goToLower v)) []
        (List.map renderRespDirective ds) =
        splitCacheControlHeader (List.map renderRespDirective ds) from rfl, ih]
    simp

/-! ### The client-directive loop on rendered directives (claim C3) -/

/-- Every string starts with itself, with anything appended. -/
theorem sw_append_self (a x : GoStr) : goStartsWith (a ++ x) a = true := by
  induction a with
  | nil =>
    cases x <;> rfl
  | cons c cs ih =>
    simp only [List.cons_append, goStartsWith, List.append_eq, ih, Bool.and_true,
      beq_self_eq_true]

/-- `strings.TrimPrefix` removes an appended-on-the-left prefix exactly. -/
theorem dropPre_append (a x : GoStr) : goDropPre (a ++ x) a = x := by
  unfold goDropPre
  rw [if_pos (sw_append_self a x), List.drop_left]

/-- A structured numeric argument fits in `int64`. -/
theorem dirNum_le_max (n : DirNum) : ((n.val : Nat) : Int) ≤ maxInt64 := by
  have h := n.isLt
  unfold maxInt64
  omega

/-- The controller's client-directive loop on rendered directives equals the
structured fold. -/
theorem clientDirScan_render (dirs : List ReqDirective) : ∀ (acc : ClientDirAcc),
    clientDirScan acc (dirs.map renderReqDirective) = dirs.foldl reqDirStep acc := by
  induction dirs with
  | nil =>
    intro acc
    rfl
  | cons d ds ih =>
    intro acc
    cases d with
    | dMaxAge n =>
      have hp : goParseInt (goDropPre (gs "max-age=" ++ natToDec n.val) (gs "max-age=")) =
          some ((n.val : Nat) : Int) := by
        rw [dropPre_append]
        exact goParseInt_natToDec n.val (dirNum_le_max n)
      show clientDirScan
          { acc with
              maxAge :=
                match goParseInt (goDropPre (gs "max-age=" ++ natToDec n.val) (gs "max-age=")) with
                | some v => v
                | none => -1 } (List.map renderReqDirective ds) =
        List.foldl reqDirStep acc (ReqDirective.dMaxAge n :: ds)
      rw [hp]
      exact ih (reqDirStep acc (ReqDirective.dMaxAge n))
    | dMaxStale v =>
      cases v with
      | none =>
        show clientDirScan { acc with compareTTL := minInt64 } (List.map renderReqDirective ds) =
          List.foldl reqDirStep acc (ReqDirective.dMaxStale none :: ds)
        exact ih (reqDirStep acc (ReqDirective.dMaxStale none))
      | some n =>
        have hp : goParseInt (goDropPre (gs "max-stale=" ++ natToDec n.val) (gs "max-stale=")) =
            some ((n.val : Nat) : Int) := by
          rw [dropPre_append]
          exact goParseInt_natToDec n.val (dirNum_le_max n)
        show clientDirScan
            { acc with
                compareTTL :=
                  match goParseInt (goDropPre (gs "max-stale=" ++ natToDec n.val)
                      (gs "max-stale=")) with
                  | some v => -v
                  | none => minInt64 } (List.map renderReqDirective ds) =
          List.foldl reqDirStep acc (ReqDirective.dMaxStale (some n) :: ds)
        rw [hp]
        exact ih (reqDirStep acc (ReqDirective.dMaxStale (some n)))
    | dMinFresh n =>
      have hp : goParseInt (goDropPre (gs "min-fresh=" ++ natToDec n.val) (gs "min-fresh=")) =
          some ((n.val : Nat) : Int) := by
        rw [dropPre_append]
        exact goParseInt_natToDec n.val (dirNum_le_max n)
      show clientDirScan
          { acc with
              compareTTL :=
                match goParseInt (goDropPre (gs "min-fresh=" ++ natToDec n.val)
                    (gs "min-fresh=")) with
                | some v => v
                | none => 0 } (List.map renderReqDirective ds) =
        List.foldl reqDirStep acc (ReqDirective.dMinFresh n :: ds)
      rw [hp]
      exact ih (reqDirStep acc (ReqDirective.dMinFresh n))
    | dNoCache =>
      show clientDirScan acc (List.map renderReqDirective ds) =
        List.foldl reqDirStep acc (ReqDirective.dNoCache :: ds)
      exact ih acc

/-- The concrete fold is the claim-side scan under the representation maps
`repMa`/`repCt`. -/
theorem reqFold_rep (dirs : List ReqDirective) : ∀ (sma : Option DirNum) (sct : Option Int),
    dirs.foldl reqDirStep { maxAge := repMa sma, compareTTL := repCt sct } =
      { maxAge := repMa (dirs.foldl specClientStep (sma, sct)).1,
        compareTTL := repCt (dirs.foldl specClientStep (sma, sct)).2 } := by
  induction dirs with
  | nil =>
    intro sma sct
    rfl
  | cons d ds ih =>
    intro sma sct
    cases d with
    | dMaxAge n => exact ih (some n) sct
    | dMaxStale v =>
      cases v with
      | none => exact ih sma none
      | some n => exact ih sma (some (-((n.val : Nat) : Int)))
    | dMinFresh n => exact ih sma (some ((n.val : Nat) : Int))
    | dNoCache => exact ih sma sct

/-- Compare-TTL values produced by the claim-side scan stay within the
structured-argument bound. -/
theorem specScan_ct_bound (dirs : List ReqDirective) :
    ∀ (sma : Option DirNum) (sct : Option Int),
    (∀ v, sct = some v → -2147483648 ≤ v ∧ v ≤ 2147483648) →
    ∀ v, (dirs.foldl specClientStep (sma, sct)).2 = some v →
      -2147483648 ≤ v ∧ v ≤ 2147483648 := by
  induction dirs with
  | nil =>
    intro sma sct h v hv
    exact h v hv
  | cons d ds ih =>
    intro sma sct h v hv
    cases d with
    | dMaxAge n => exact ih (some n) sct h v hv
    | dMaxStale w =>
      cases w with
      | none => exact ih sma none (fun v hv => Option.noConfusion hv) v hv
      | some n =>
        refine ih sma (some (-((n.val : Nat) : Int))) (fun v hv => ?_) v hv
        injection hv with hv
        subst hv
        have := n.isLt
        omega
    | dMinFresh n =>
      refine ih sma (some ((n.val : Nat) : Int)) (fun v hv => ?_) v hv
      injection hv with hv
      subst hv
      have := n.isLt
      omega
    | dNoCache => exact ih sma sct h v hv

/-- Wrapping is the identity inside the `int64` range. -/
theorem wrap64_id (x : Int) (h1 : minInt64 ≤ x) (h2 : x ≤ maxInt64) : wrap64 x = x := by
  unfold minInt64 at h1
  unfold maxInt64 at h2
  unfold wrap64
  rw [Int.emod_eq_of_lt (by omega) (by omega)]
  omega

/-- Converting a bounded second count to a duration does not overflow. -/
theorem secondsToDur_bounded (v : Int) (h1 : -2147483648 ≤ v) (h2 : v ≤ 2147483648) :
    secondsToDur v = v * 1000000000 := by
  unfold secondsToDur
  rw [wrap64_id v (by unfold minInt64; omega) (by unfold maxInt64; omega)]
  rw [wrap64_id _ (by unfold minInt64; omega) (by unfold maxInt64; omega)]

/-- Converting `math.MinInt64` seconds to a duration overflows to exactly
zero. -/
theorem secondsToDur_min : secondsToDur minInt64 = 0 := by decide

/-! ### no-cache and must-revalidate checks on rendered directives (claim C3) -/

/-- The response-side `no-cache` check (plain or field-list form) on rendered
directives. -/
theorem anyNoCacheResp (rdirs : List RespDirective) :
    ((rdirs.map renderRespDirective).any fun d =>
        goTrimSpace d == gs "no-cache" || goStartsWith d (gs "no-cache=")) =
      rdirs.any (fun d =>
        match d with
        | .dNoCachePlain => true
        | .dNoCacheFields _ => true
        | _ => false) := by
  induction rdirs with
  | nil => rfl
  | cons d ds ih =>
    simp only [List.map_cons, List.any_cons, ih]
    congr 1
    cases d with
    | dNoCacheFields fields =>
      rw [renderResp_trim]
      rfl
    | dSMaxAge n =>
      rw [renderResp_trim]
      rfl
    | dRespMaxAge n =>
      rw [renderResp_trim]
      rfl
    | dNoCachePlain => rfl
    | dMustRevalidate => rfl
    | dProxyRevalidate => rfl
    | dPublic => rfl
    | dPrivate => rfl
    | dNoStore => rfl

/-- The request-side `no-cache` check (plain form only) on rendered
directives. -/
theorem anyNoCacheReq (qdirs : List ReqDirective) :
    ((qdirs.map renderReqDirective).any fun d => goTrimSpace d == gs "no-cache") =
      qdirs.any (fun d =>
        match d with
        | .dNoCache => true
        | _ => false) := by
  induction qdirs with
  | nil => rfl
  | cons d ds ih =>
    simp only [List.map_cons, List.any_cons, ih]
    congr 1
    cases d with
    | dMaxAge n =>
      rw [renderReq_trim]
      rfl
    | dMaxStale v =>
      cases v with
      | none => rfl
      | some n =>
        rw [renderReq_trim]
        rfl
    | dMinFresh n =>
      rw [renderReq_trim]
      rfl
    | dNoCache => rfl

/-- The `must-revalidate`/`proxy-revalidate` check on rendered directives. -/
theorem anyMustReval (rdirs : List RespDirective) :
    ((rdirs.map renderRespDirective).any fun d =>
        goTrimSpace d == gs "must-revalidate" || goTrimSpace d == gs "proxy-revalidate") =
      rdirs.any (fun d =>
        match d with
        | .dMustRevalidate => true
        | .dProxyRevalidate => true
        | _ => false) := by
  induction rdirs with
  | nil => rfl
  | cons d ds ih =>
    simp only [List.map_cons, List.any_cons, ih]
    congr 1
    cases d with
    | dNoCacheFields fields =>
      rw [renderResp_trim]
      rfl
    | dSMaxAge n =>
      rw [renderResp_trim]
      rfl
    | dRespMaxAge n =>
      rw [renderResp_trim]
      rfl
    | dNoCachePlain => rfl
    | dMustRevalidate => rfl
    | dProxyRevalidate => rfl
    | dPublic => rfl
    | dPrivate => rfl
    | dNoStore => rfl

/-- A nested two-test conditional is a disjunction. -/
theorem if_if_or (b1 b2 b3 : Bool) :
    (if b1 = true then true else if b2 = true then true else b3) = (b1 || (b2 || b3)) := by
  cases b1 <;> cases b2 <;> simp

/-- `requestOrResponseHasNoCache` on structured headers. -/
theorem noCache_render (qdirs : List ReqDirective) (rdirs : List RespDirective)
    (pragmaVals : List GoStr) (reqRest respRest : Headers)
    (method : GoStr) (u : URL) (tls : Bool) (host : GoStr) (statusCode : Int) :
    requestOrResponseHasNoCache
      { statusCode := statusCode
        headers := mkRespHeaders rdirs respRest
        request := { method := method, url := u, tls := tls, host := host,
                     headers := mkReqHeaders qdirs pragmaVals reqRest } } =
      ((rdirs.any fun d =>
          match d with
          | .dNoCachePlain => true
          | .dNoCacheFields _ => true
          | _ => false) ||
        ((qdirs.any fun d =>
            match d with
            | .dNoCache => true
            | _ => false) ||
          (qdirs.isEmpty &&
            ((match pragmaVals with | v :: _ => v | [] => ([] : GoStr)) == gs "no-cache")))) := by
  have hv1 : headerValues (mkRespHeaders rdirs respRest) ccKey =
      List.map renderRespDirective rdirs := rfl
  have hv2 : headerValues (mkReqHeaders qdirs pragmaVals reqRest) ccKey =
      List.map renderReqDirective qdirs := rfl
  have hg2 : (headerGet (mkReqHeaders qdirs pragmaVals reqRest) ccKey == ([] : GoStr)) =
      qdirs.isEmpty := by
    cases qdirs with
    | nil => rfl
    | cons d ds => exact renderReq_ne_nil d
  simp only [requestOrResponseHasNoCache, hv1, hv2, splitCCH_renderReq, splitCCH_renderResp,
    anyNoCacheResp, anyNoCacheReq, hg2]
  cases pragmaVals with
  | nil =>
    rw [if_if_or]
    rfl
  | cons v vs =>
    rw [if_if_or]
    rfl

/-- `responseHasMustRevalidate` on structured headers. -/
theorem mustReval_render (rdirs : List RespDirective) (respRest : Headers)
    (statusCode : Int) (request : Request) :
    responseHasMustRevalidate
      { statusCode := statusCode, headers := mkRespHeaders rdirs respRest,
        request := request } =
      rdirs.any (fun d =>
        match d with
        | .dMustRevalidate => true
        | .dProxyRevalidate => true
        | _ => false) := by
  have hv1 : headerValues (mkRespHeaders rdirs respRest) ccKey =
      List.map renderRespDirective rdirs := rfl
  simp only [responseHasMustRevalidate, hv1, splitCCH_renderResp, anyMustReval]

/-! ### The serve-from-cache gate on structured headers (claim C3) -/

/-- The direct-serve gate evaluated over rendered structured headers. -/
theorem serveGate_render (qdirs : List ReqDirective) (rdirs : List RespDirective)
    (pragmaVals : List GoStr) (reqRest respRest : Headers)
    (method : GoStr) (u : URL) (tls : Bool) (host : GoStr) (statusCode : Int)
    (reqOld : Request) (ttl : Int) (parseTime : GoStr → Option Int) (now : Int) :
    serveFromCacheGate
      { method := method, url := u, tls := tls, host := host,
        headers := mkReqHeaders qdirs pragmaVals reqRest }
      { statusCode := statusCode, headers := mkRespHeaders rdirs respRest, request := reqOld }
      ttl parseTime now =
    amendedServeCond qdirs rdirs pragmaVals
      (getResponseAge
        { statusCode := statusCode, headers := mkRespHeaders rdirs respRest, request := reqOld }
        parseTime now) ttl := by
  have hv2 : headerValues (mkReqHeaders qdirs pragmaVals reqRest) ccKey =
      List.map renderReqDirective qdirs := rfl
  have hage : getResponseAge
      { statusCode := statusCode, headers := mkRespHeaders rdirs respRest,
        request := { method := method, url := u, tls := tls, host := host,
                     headers := mkReqHeaders qdirs pragmaVals reqRest } } parseTime now =
      getResponseAge
        { statusCode := statusCode, headers := mkRespHeaders rdirs respRest,
          request := reqOld } parseTime now := rfl
  simp only [serveFromCacheGate, amendedServeCond, specClientScan]
  rw [hv2, splitCCH_renderReq, clientDirScan_render]
  rw [show ({ maxAge := -1, compareTTL := 0 } : ClientDirAcc) =
    { maxAge := repMa none, compareTTL := repCt (some 0) } from rfl]
  rw [reqFold_rep qdirs none (some 0)]
  rw [hage]
  rw [noCache_render qdirs rdirs pragmaVals reqRest respRest method u tls host statusCode]
  rw [mustReval_render rdirs respRest statusCode
    { method := method, url := u, tls := tls, host := host,
      headers := mkReqHeaders qdirs pragmaVals reqRest }]
  have hproj1 : (ClientDirAcc.mk (repMa (List.foldl specClientStep (none, some 0) qdirs).1)
      (repCt (List.foldl specClientStep (none, some 0) qdirs).2)).compareTTL =
      repCt (List.foldl specClientStep (none, some 0) qdirs).2 := rfl
  have hproj2 : (ClientDirAcc.mk (repMa (List.foldl specClientStep (none, some 0) qdirs).1)
      (repCt (List.foldl specClientStep (none, some 0) qdirs).2)).maxAge =
      repMa (List.foldl specClientStep (none, some 0) qdirs).1 := rfl
  rw [hproj1, hproj2]
  obtain ⟨s1, s2, hs⟩ : ∃ a b, List.foldl specClientStep (none, some 0) qdirs = (a, b) :=
    ⟨(List.foldl specClientStep (none, some 0) qdirs).1,
      (List.foldl specClientStep (none, some 0) qdirs).2, rfl⟩
  simp only [hs]
  cases s2 with
  | none =>
    cases s1 with
    | none =>
      simp only [repCt, repMa, secondsToDur_min]
      rw [if_neg (fun h => absurd h.1 (by decide))]
    | some n =>
      simp only [repCt, repMa, secondsToDur_min]
      rw [if_neg (fun h => absurd h.1 (by decide)),
        if_neg (show ¬((0 : Int) ≤ minInt64) from by decide)]
  | some v =>
    have hb := specScan_ct_bound qdirs none (some 0)
      (fun w hw => by
        injection hw with hw
        subst hw
        omega) v (by rw [hs])
    cases s1 with
    | none =>
      simp only [repCt, repMa, secondsToDur_bounded v hb.1 hb.2]
      rw [if_neg (fun h => absurd h.2 (by omega))]
    | some n =>
      simp only [repCt, repMa, secondsToDur_bounded v hb.1 hb.2]
      by_cases hge : (0 : Int) ≤ v
      · rw [if_pos ⟨hge, by omega⟩, if_pos hge]
      · rw [if_neg (fun h => hge h.1), if_neg hge]

/-- C3 counterexample: a stored response whose only `Cache-Control` directive
is the field-list form `no-cache="foo"` satisfies every condition of the
claim as stated (fresh, no unqualified `no-cache` on either side, no
`must-revalidate`, no client `max-age` bound), yet the controller does not
serve it from cache: `requestOrResponseHasNoCache` also matches the
field-list form on the response side. -/
theorem c3_field_list_counterexample :
    claimServeCond [] [.dNoCacheFields [⟨gs "foo", by decide⟩]]
        (getResponseAge c3CachedResponse (fun _ => none) 0) (5 * 1000000000) = true ∧
      serveFromCacheGate c3Request c3CachedResponse (5 * 1000000000) (fun _ => none) 0 = false := by
  decide

/-- C3 (corrected): for every request and stored response whose
`Cache-Control` headers consist of well-formed rendered directives, the
cached response is served directly iff the amended condition holds: the TTL
must exceed the compare-TTL converted to a duration, where a valueless
`max-stale` stores `math.MinInt64` whose conversion overflows to exactly 0;
`no-cache` blocks in unqualified form on the request side but in both
unqualified and field-list form on the response side, and an empty request
`Cache-Control` with `Pragma: no-cache` also blocks; `must-revalidate` and
`proxy-revalidate` block; and the client `max-age=N` bound applies exactly
when the final compare-TTL is non-negative (not merely when `max-stale` is
absent).  When served, the `Age` header is set to the recomputed age exactly
when that age is non-negative. -/
theorem c3_serve_condition_amended
    (qdirs : List ReqDirective) (rdirs : List RespDirective)
    (pragmaVals : List GoStr) (reqRest respRest : Headers)
    (method : GoStr) (u : URL) (tls : Bool) (host : GoStr) (statusCode : Int)
    (reqOld : Request) (ttl : Int) (parseTime : GoStr → Option Int) (now : Int) :
    serveFromCacheGate
      { method := method, url := u, tls := tls, host := host,
        headers := mkReqHeaders qdirs pragmaVals reqRest }
      { statusCode := statusCode, headers := mkRespHeaders rdirs respRest, request := reqOld }
      ttl parseTime now =
    amendedServeCond qdirs rdirs pragmaVals
      (getResponseAge
        { statusCode := statusCode, headers := mkRespHeaders rdirs respRest, request := reqOld }
        parseTime now) ttl ∧
    headerGet
      (writeCachedResponseHeaders
        { statusCode := statusCode, headers := mkRespHeaders rdirs respRest, request := reqOld }
        parseTime now) ageKey =
      (if 0 ≤ getResponseAge
          { statusCode := statusCode, headers := mkRespHeaders rdirs respRest, request := reqOld }
          parseTime now then
        intToDec (getResponseAge
          { statusCode := statusCode, headers := mkRespHeaders rdirs respRest, request := reqOld }
          parseTime now)
      else headerGet (mkRespHeaders rdirs respRest) ageKey) := by
  refine ⟨serveGate_render qdirs rdirs pragmaVals reqRest respRest method u tls host statusCode
    reqOld ttl parseTime now, ?_⟩
  unfold writeCachedResponseHeaders
  by_cases hpos : 0 ≤ getResponseAge
      { statusCode := statusCode, headers := mkRespHeaders rdirs respRest, request := reqOld }
      parseTime now
  · rw [if_pos hpos, if_pos hpos]
    rfl
  · rw [if_neg hpos, if_neg hpos]
